import Mathlib

/-!
Verification of the Arduino-TWI bus-manager core.

Shallow embedding of the TWI (two-wire / I2C) bus-manager library:

* the abstract interface and device handle (src/TWI.h, version 1.1),
* the bit-banged software bus manager (src/Software/TWI.h, version 1.1),
* the SAM hardware bus manager (src/Hardware/SAM/TWI.h, first version).

The physical bus is modelled by an environment that answers the master's
line reads: stream sda answers the k-th read of the data line (arbitration
checks, acknowledgement samples, data bits driven by the device), stream
scl answers the k-th poll of the clock line inside a clock-stretching wait
(false means the device is still holding the clock low).  The machine state
keeps the busy flag and the m_start flag of the source together with the
two stream cursors.  Every operation additionally returns the list of
line-level events it produced: completed start / repeated-start / stop
waveforms, individual bits driven or sampled, and one summary event per
transferred byte.  Fixed delays (delayMicroseconds) have no observable
effect in this model and are dropped.
-/

/-- Line-level bus events observable on the wire. -/
inductive Ev where
  | start
  | repStart
  | stop
  | bitSent (v : Bool)
  | bitRecv (v : Bool)
  | byteSent (b : Nat)
  | byteRecv (b : Nat)
deriving DecidableEq, Repr

abbrev Trace := List Ev

/-- The simulated bus environment: answers of the two open-drain lines.
sda k is the level read at the k-th sample of the data line; scl k is the
level read at the k-th poll of the clock line during clock stretching. -/
structure Env where
  sda : Nat → Bool
  scl : Nat → Bool

/-- Software bus-manager state: the busy flag of the abstract TWI base
class, the m_start flag of Software::TWI, and the two stream cursors. -/
structure S where
  busy : Bool
  start : Bool
  sdaIdx : Nat
  sclIdx : Nat
deriving DecidableEq, Repr

/-- A scatter/gather vector element (iovec_t): a NULL buffer (the sentinel)
or the count bytes the buffer holds. -/
abbrev Seg := Option (List Nat)

/-- MSB-first bit expansion of a byte, mirroring the transmission loop
of write_byte: bit (byte & 0x80) is sent first, then byte <<= 1. -/
def msbBits (b : Nat) : List Bool :=
  [b.testBit 7, b.testBit 6, b.testBit 5, b.testBit 4,
   b.testBit 3, b.testBit 2, b.testBit 1, b.testBit 0]

/-- Projection keeping bits driven by the master. -/
@[simp] def sentBitOf : Ev → Option Bool
  | Ev.bitSent v => some v
  | Ev.start => none
  | Ev.repStart => none
  | Ev.stop => none
  | Ev.bitRecv _ => none
  | Ev.byteSent _ => none
  | Ev.byteRecv _ => none

/-- Projection keeping bytes transmitted by the master. -/
@[simp] def sentByteOf : Ev → Option Nat
  | Ev.byteSent b => some b
  | Ev.start => none
  | Ev.repStart => none
  | Ev.stop => none
  | Ev.bitSent _ => none
  | Ev.bitRecv _ => none
  | Ev.byteRecv _ => none

/-- Start, repeated-start and stop waveforms. -/
@[simp] def isCond : Ev → Bool
  | Ev.start => true
  | Ev.repStart => true
  | Ev.stop => true
  | Ev.bitSent _ => false
  | Ev.bitRecv _ => false
  | Ev.byteSent _ => false
  | Ev.byteRecv _ => false

/-- Acknowledgement bits the master drives during an n-byte read:
ACK (low, false) after every byte but the last, NACK (true) after the
last. -/
def ackSeq : Nat → List Bool
  | 0 => []
  | n + 1 => List.replicate n false ++ [true]

namespace Software

/-- Sample the data line (m_sda read). -/
def readSDA (e : Env) (s : S) : Bool × S :=
  (e.sda s.sdaIdx, { s with sdaIdx := s.sdaIdx + 1 })

/-- Poll the clock line (m_scl read). -/
def readSCL (e : Env) (s : S) : Bool × S :=
  (e.scl s.sclIdx, { s with sclIdx := s.sclIdx + 1 })

/-- Maximum number of clock stretching retries (Software::TWI v1.1). -/
def CLOCK_STRETCHING_RETRY_MAX : Nat := 25

/-- The retry loop of clock_stretching: poll the clock line up to the
given number of times, succeeding as soon as it reads high. -/
def stretch_loop (e : Env) : Nat → S → Bool × S
  | 0, s => (false, s)
  | n + 1, s =>
    let p := readSCL e s
    if p.1 then (true, p.2) else stretch_loop e n p.2

/-- bool clock_stretching(): allow the device to stretch the clock. -/
def clock_stretching (e : Env) (s : S) : Bool × S :=
  stretch_loop e CLOCK_STRETCHING_RETRY_MAX s

/-- bool start_condition(): release the data line, fail if it reads low
(another master holds the bus), else drive data low and then clock low. -/
def start_condition (e : Env) (s : S) : Bool × Trace × S :=
  let p := readSDA e s
  if p.1 then (true, [Ev.start], p.2) else (false, [], p.2)

/-- bool repeated_start_condition(): release data, fail if it reads low,
release clock, drive data low again, drive clock low. -/
def repeated_start_condition (e : Env) (s : S) : Bool × Trace × S :=
  let p := readSDA e s
  if p.1 then (true, [Ev.repStart], p.2) else (false, [], p.2)

/-- bool stop_condition(): drive data low, release clock, wait out clock
stretching, release data (the stop edge) and check the line level. -/
def stop_condition (e : Env) (s : S) : Bool × Trace × S :=
  let q := clock_stretching e s
  if q.1 then
    let p := readSDA e q.2
    (!p.1, [Ev.stop], p.2)
  else (false, [], q.2)

/-- bool write_bit(value): set data to the bit value, pulse the clock with
a clock-stretching wait; fails only on a stretch timeout. -/
def write_bit (e : Env) (v : Bool) (s : S) : Bool × Trace × S :=
  let q := clock_stretching e s
  if q.1 then (true, [Ev.bitSent v], q.2) else (false, [], q.2)

/-- bool read_bit(value): release data, pulse the clock with a
clock-stretching wait and sample the data line. -/
def read_bit (e : Env) (s : S) : (Bool × Bool) × Trace × S :=
  let q := clock_stretching e s
  if q.1 then
    let p := readSDA e q.2
    ((true, p.1), [Ev.bitRecv p.1], p.2)
  else ((false, false), [], q.2)

/-- The 8-bit transmission loop of write_byte. -/
def send_bits (e : Env) : List Bool → S → Bool × Trace × S
  | [], s => (true, [], s)
  | v :: vs, s =>
    match write_bit e v s with
    | (true, t1, s1) =>
      match send_bits e vs s1 with
      | (ok, t2, s2) => (ok, t1 ++ t2, s2)
    | (false, t1, s1) => (false, t1, s1)

/-- bool write_byte(byte, nack): send the 8 bits MSB first, then sample
the acknowledgement bit driven by the device. -/
def write_byte (e : Env) (b : Nat) (s : S) : (Bool × Bool) × Trace × S :=
  match send_bits e (msbBits b) s with
  | (true, t1, s1) =>
    match read_bit e s1 with
    | ((true, nack), t2, s2) =>
      ((true, nack), t1 ++ t2 ++ [Ev.byteSent (b % 256)], s2)
    | ((false, v), t2, s2) => ((false, v), t1 ++ t2, s2)
  | (false, t1, s1) => ((false, false), t1, s1)

/-- The 8-bit reception loop of read_byte, accumulating the byte. -/
def recv_bits (e : Env) : Nat → Nat → S → (Bool × Nat) × Trace × S
  | 0, acc, s => ((true, acc), [], s)
  | n + 1, acc, s =>
    match read_bit e s with
    | ((true, v), t1, s1) =>
      match recv_bits e n (2 * acc + v.toNat) s1 with
      | (r, t2, s2) => (r, t1 ++ t2, s2)
    | ((false, _), t1, s1) => ((false, acc), t1, s1)

/-- bool read_byte(byte, ack): receive 8 bits MSB first, then drive the
acknowledgement bit: ACK (low) if more bytes will follow, NACK else. -/
def read_byte (e : Env) (ack : Bool) (s : S) : (Bool × Nat) × Trace × S :=
  match recv_bits e 8 0 s with
  | ((true, b), t1, s1) =>
    match write_bit e (!ack) s1 with
    | (true, t2, s2) => ((true, b), t1 ++ t2 ++ [Ev.byteRecv b], s2)
    | (false, t2, s2) => ((false, b), t1 ++ t2, s2)
  | ((false, b), t1, s1) => ((false, b), t1, s1)

/-- The body of acquire() once the busy flag has been observed clear:
set busy, set m_start and attempt the start condition. -/
def acquire_attempt (e : Env) (s : S) : Bool × Trace × S :=
  start_condition e { s with busy := true, start := true }

/-- bool acquire(): cooperatively yield while the busy flag is set, then
take the bus.  The fuel argument bounds the number of yields; in this
single-task model the state cannot change while waiting, so a busy bus
never lets acquire complete (result none). -/
def acquire (e : Env) : Nat → S → Option (Bool × Trace × S)
  | 0, s => if s.busy then none else some (acquire_attempt e s)
  | fuel + 1, s => if s.busy then acquire e fuel s else some (acquire_attempt e s)

/-- bool release(): clear m_start and the busy flag, then generate a stop
condition (unconditionally in the software implementation). -/
def release (e : Env) (s : S) : Bool × Trace × S :=
  stop_condition e { s with start := false, busy := false }

/-- The byte loop of read(addr, buf, count): ACK every byte but the last,
NACK the last. -/
def read_loop (e : Env) : Nat → List Nat → S → (Bool × List Nat) × Trace × S
  | 0, ds, s => ((true, ds), [], s)
  | r + 1, ds, s =>
    match read_byte e (r != 0) s with
    | ((true, d), t1, s1) =>
      match read_loop e r (ds ++ [d]) s1 with
      | (res, t2, s2) => (res, t1 ++ t2, s2)
    | ((false, _), t1, s1) => ((false, ds), t1, s1)

/-- int read(addr, buf, count): repeated start when m_start is clear,
address the device with the read bit set (addr | 1), then read and
acknowledge count bytes.  Returns the bytes stored into the buffer
alongside the int result. -/
def read (e : Env) (addr : Nat) (count : Nat) (s : S) :
    (Int × List Nat) × Trace × S :=
  match (if s.start then (true, ([] : Trace), s)
         else repeated_start_condition e s) with
  | (false, t0, s0) => ((-1, []), t0, s0)
  | (true, t0, s0) =>
    let s1 := { s0 with start := false }
    match write_byte e (addr ||| 1) s1 with
    | ((false, _), t1, s2) => ((-1, []), t0 ++ t1, s2)
    | ((true, true), t1, s2) => ((-1, []), t0 ++ t1, s2)
    | ((true, false), t1, s2) =>
      match read_loop e count [] s2 with
      | ((true, ds), t2, s3) => ((Int.ofNat count, ds), t0 ++ t1 ++ t2, s3)
      | ((false, ds), t2, s3) => ((-1, ds), t0 ++ t1 ++ t2, s3)

/-- The byte loop over one io-vector buffer: abort on no-acknowledge or
stretch timeout. -/
def send_data (e : Env) : List Nat → S → Bool × Trace × S
  | [], s => (true, [], s)
  | d :: ds, s =>
    match write_byte e d s with
    | ((true, false), t1, s1) =>
      match send_data e ds s1 with
      | (ok, t2, s2) => (ok, t1 ++ t2, s2)
    | ((true, true), t1, s1) => (false, t1, s1)
    | ((false, _), t1, s1) => (false, t1, s1)

/-- The io-vector loop of write(addr, vp): walk the vector until the
sentinel (NULL buffer), accumulating the byte count. -/
def write_vec (e : Env) : List Seg → Int → S → Int × Trace × S
  | [], cnt, s => (cnt, [], s)
  | none :: _, cnt, s => (cnt, [], s)
  | some data :: rest, cnt, s =>
    match send_data e data s with
    | (true, t1, s1) =>
      match write_vec e rest (cnt + data.length) s1 with
      | (r, t2, s2) => (r, t1 ++ t2, s2)
    | (false, t1, s1) => (-1, t1, s1)

/-- int write(addr, vp): repeated start when m_start is clear, address the
device with the write bit (addr | 0 = addr), return 0 for a NULL vector
(presence probe), else send every buffer of the vector. -/
def write (e : Env) (addr : Nat) (vp : Option (List Seg)) (s : S) :
    Int × Trace × S :=
  match (if s.start then (true, ([] : Trace), s)
         else repeated_start_condition e s) with
  | (false, t0, s0) => (-1, t0, s0)
  | (true, t0, s0) =>
    let s1 := { s0 with start := false }
    match write_byte e addr s1 with
    | ((false, _), t1, s2) => (-1, t0 ++ t1, s2)
    | ((true, true), t1, s2) => (-1, t0 ++ t1, s2)
    | ((true, false), t1, s2) =>
      match vp with
      | none => (0, t0 ++ t1, s2)
      | some vec =>
        match write_vec e vec 0 s2 with
        | (r, t2, s3) => (r, t0 ++ t1 ++ t2, s3)

end Software

/-- Modelled from the spec: iovec.h (not under src/) provides iovec_arg,
which stores the next (buffer, count) segment and advances the vector
cursor.  A descriptor is an ordered, finite sequence of segments. -/
def iovec_arg (vec : List Seg) (seg : Seg) : List Seg := vec ++ [seg]

/-- Modelled from the spec: iovec.h (not under src/) provides iovec_end,
which terminates the vector with the NULL sentinel segment. -/
def iovec_end (vec : List Seg) : List Seg := vec ++ [none]

/-- int TWI::write(addr, buf, count): the buffer overload of the abstract
base class builds a two-element io vector holding the single segment
(buf, count) followed by the sentinel, and delegates to the scatter/gather
overload (src/TWI.h lines 151-158). -/
def write_buf (e : Env) (addr : Nat) (buf : Seg) (s : S) : Int × Trace × S :=
  Software.write e addr (some (iovec_end (iovec_arg [] buf))) s

/-- TWI::Device: binds a bus manager and a device address; the constructor
stores m_addr = addr << 1 (uint8_t). -/
structure Device where
  m_addr : Nat
deriving DecidableEq, Repr

/-- Device(twi, addr) constructor: m_addr := addr << 1, truncated to a
byte. -/
def Device.make (addr : Nat) : Device := ⟨(addr <<< 1) % 256⟩

/-- int Device::read(buf, count): forwards m_addr unchanged to the bus
manager read. -/
def Device.read (e : Env) (d : Device) (count : Nat) (s : S) :
    (Int × List Nat) × Trace × S :=
  Software.read e d.m_addr count s

/-- int Device::write(vp): forwards m_addr unchanged to the bus manager
scatter/gather write. -/
def Device.write (e : Env) (d : Device) (vp : Option (List Seg)) (s : S) :
    Int × Trace × S :=
  Software.write e d.m_addr vp s

namespace Hardware

/-- Device driver states of Hardware::TWI (SAM). -/
inductive HwState where
  | idle
  | busyS
  | writeS
deriving DecidableEq, Repr

/-- Hardware bus-manager state: busy flag, m_state, and the cursors into
the wait-outcome and receive-register streams. -/
structure HwS where
  busy : Bool
  state : HwState
  widx : Nat
  ridx : Nat
deriving DecidableEq, Repr

/-- Hardware environment: each bounded status-register polling loop of the
source (RXRDY / TXRDY / TXCOMP waits with the NACK check and the RETRY_MAX
ceiling) is abstracted to its outcome, answered by the waitOk stream; rhr
is the stream of bytes delivered by the receive holding register. -/
structure HwEnv where
  waitOk : Nat → Bool
  rhr : Nat → Nat

/-- Run one bounded status-register polling loop. -/
def hwWait (e : HwEnv) (s : HwS) : Bool × HwS :=
  (e.waitOk s.widx, { s with widx := s.widx + 1 })

/-- bool stop_condition(): command a stop (TWI_CR = STOP, bus signaling),
set m_state = BUSY_STATE, and wait for transfer completion. -/
def stop_condition (e : HwEnv) (s : HwS) : Bool × List Ev × HwS :=
  let q := hwWait e { s with state := HwState.busyS }
  (q.1, [Ev.stop], q.2)

/-- bool release(): emit a stop condition only when m_state is
WRITE_STATE, then mark the bus manager idle in every case. -/
def release (e : HwEnv) (s : HwS) : Bool × List Ev × HwS :=
  match (if s.state = HwState.writeS then stop_condition e s
         else (true, ([] : List Ev), s)) with
  | (res, t, s1) => (res, t, { s1 with busy := false, state := HwState.idle })

/-- The byte loop of the hardware read: the stop command is issued
together with the last byte. -/
def read_loop (e : HwEnv) : Nat → List Nat → HwS → (Bool × List Nat) × List Ev × HwS
  | 0, ds, s => ((true, ds), [], s)
  | r + 1, ds, s =>
    let t0 : List Ev := if r = 0 then [Ev.stop] else []
    let q := hwWait e s
    if q.1 then
      let d := e.rhr q.2.ridx % 256
      let s1 := { q.2 with ridx := q.2.ridx + 1 }
      match read_loop e r (ds ++ [d]) s1 with
      | (res, t2, s2) => (res, t0 ++ Ev.byteRecv d :: t2, s2)
    else ((false, ds), t0, q.2)

/-- int read(addr, buf, count): a zero length read is ignored; a pending
write sequence is closed with a stop condition first; then the hardware
engine runs the addressed read. -/
def read (e : HwEnv) (addr : Nat) (count : Nat) (s : HwS) :
    (Int × List Nat) × List Ev × HwS :=
  if count = 0 then ((0, []), [], s)
  else
    match (if s.state = HwState.writeS then stop_condition e s
           else (true, ([] : List Ev), s)) with
    | (false, t0, s0) => ((-1, []), t0, s0)
    | (true, t0, s0) =>
      let q := hwWait e s0
      if q.1 then
        match read_loop e count [] q.2 with
        | ((true, ds), t1, s1) =>
          let q2 := hwWait e s1
          (if q2.1 then (Int.ofNat count, ds) else (-1, ds), t0 ++ t1, q2.2)
        | ((false, ds), t1, s1) => ((-1, ds), t0 ++ t1, s1)
      else ((-1, []), t0, q.2)

/-- The byte loop over one io-vector buffer of the hardware write: load
the transmit holding register and wait for TXRDY, aborting on failure. -/
def send_data (e : HwEnv) : List Nat → Int → HwS → (Bool × Int) × List Ev × HwS
  | [], res, s => ((true, res), [], s)
  | d :: ds, res, s =>
    let q := hwWait e s
    if q.1 then
      match send_data e ds (res + 1) q.2 with
      | (r, t2, s2) => (r, Ev.byteSent (d % 256) :: t2, s2)
    else ((false, res + 1), [Ev.byteSent (d % 256)], q.2)

/-- The io-vector loop of the hardware write. -/
def write_vec (e : HwEnv) : List Seg → Int → HwS → (Bool × Int) × List Ev × HwS
  | [], res, s => ((true, res), [], s)
  | none :: _, res, s => ((true, res), [], s)
  | some data :: rest, res, s =>
    match send_data e data res s with
    | ((true, res1), t1, s1) =>
      match write_vec e rest res1 s1 with
      | (r, t2, s2) => (r, t1 ++ t2, s2)
    | ((false, res1), t1, s1) => ((false, res1), t1, s1)

/-- int write(addr, vp): a NULL vector is a presence probe (transmit a
zero byte and a stop condition); otherwise set m_state = WRITE_STATE and
send every buffer of the vector, without a terminating stop condition. -/
def write (e : HwEnv) (addr : Nat) (vp : Option (List Seg)) (s : HwS) :
    Int × List Ev × HwS :=
  match vp with
  | none =>
    match stop_condition e s with
    | (ok, t1, s1) => (if ok then 0 else -1, Ev.byteSent 0 :: t1, s1)
  | some vec =>
    match write_vec e vec 0 { s with state := HwState.writeS } with
    | ((true, res), t, s1) => (res, t, s1)
    | ((false, _), t, s1) => (-1, t, s1)

end Hardware

/-- A distinguished environment: a pulled-up idle bus with an always
acknowledging device that never stretches the clock. -/
def envAck : Env := ⟨fun _ => false, fun _ => true⟩

/-- An environment where every data-line sample reads high: the device
never acknowledges (and the bus is free for arbitration checks). -/
def envNack : Env := ⟨fun _ => true, fun _ => true⟩

/-- Simulated bus for a presence scan: the bus idles high for the initial
arbitration check, and afterwards the device drives the data line low
(acknowledge) exactly when it is present. -/
def envScan (devAck : Bool) : Env :=
  ⟨fun k => if k = 0 then true else !devAck, fun _ => true⟩

/-- Simulated device that holds the clock line low for the first n polls
of every stretching wait, counted over the whole run. -/
def envStretch (n : Nat) : Env :=
  ⟨fun _ => false, fun k => decide (n ≤ k)⟩

/-- Environment for a combined write-then-read transaction: the data line
reads high at the repeated-start arbitration check (sample 2) and low
(acknowledge, data zero) everywhere else. -/
def envWR : Env := ⟨fun k => decide (k = 2), fun _ => true⟩

/-- A fresh, unowned bus manager state. -/
def sFree : S := ⟨false, false, 0, 0⟩

/-- The state right after a successful acquire that consumed one data-line
sample for its arbitration check. -/
def sAcq1 : S := ⟨true, true, 1, 0⟩

/-- A freshly acquired state with both cursors at zero, used where the
acquire phase is not part of the run under study. -/
def sAcq : S := ⟨true, true, 0, 0⟩

/-- A hardware environment whose status waits all succeed and whose
receive register always delivers zero. -/
def hwEnvT : Hardware.HwEnv := ⟨fun _ => true, fun _ => 0⟩

/-- A hardware state inside a transaction whose last operation was a
write (m_state = WRITE_STATE). -/
def hwWrite : Hardware.HwS := ⟨true, Hardware.HwState.writeS, 0, 0⟩

/-- A hardware state inside a transaction whose last operation was not a
write (m_state = BUSY_STATE). -/
def hwBusy : Hardware.HwS := ⟨true, Hardware.HwState.busyS, 0, 0⟩

namespace Software

theorem filterMap_sentBit_bits (l : List Bool) :
    (l.map Ev.bitSent).filterMap sentBitOf = l := by
  induction l with
  | nil => rfl
  | cons v vs ih => simp [sentBitOf, ih]

theorem filterMap_sentByte_bits (l : List Bool) :
    (l.map Ev.bitSent).filterMap sentByteOf = [] := by
  induction l with
  | nil => rfl
  | cons v vs ih => simp [sentByteOf, ih]

theorem filter_isCond_bits (l : List Bool) :
    (l.map Ev.bitSent).filter isCond = [] := by
  induction l with
  | nil => rfl
  | cons v vs ih => simp [isCond, ih]

theorem filterMap_comp_sentBit (l : List Bool) :
    l.filterMap (sentBitOf ∘ Ev.bitSent) = l := by
  induction l with
  | nil => rfl
  | cons v vs ih => simp [ih, Function.comp]

theorem filterMap_comp_sentByte (l : List Bool) :
    l.filterMap (sentByteOf ∘ Ev.bitSent) = [] := by
  induction l with
  | nil => rfl
  | cons v vs ih => simp [ih, Function.comp]

theorem filter_comp_isCond (l : List Bool) :
    l.filter (isCond ∘ Ev.bitSent) = [] := by
  induction l with
  | nil => rfl
  | cons v vs ih => simp [ih, Function.comp]

theorem stretch_loop_core (e : Env) :
    ∀ (n : Nat) (s : S), (stretch_loop e n s).2.busy = s.busy
      ∧ (stretch_loop e n s).2.start = s.start
      ∧ (stretch_loop e n s).2.sdaIdx = s.sdaIdx := by
  intro n
  induction n with
  | zero => intro s; simp [stretch_loop]
  | succ m ih =>
    intro s
    by_cases h : e.scl s.sclIdx
    · simp [stretch_loop, readSCL, h]
    · simpa [stretch_loop, readSCL, h] using ih { s with sclIdx := s.sclIdx + 1 }

theorem stretch_loop_bound (e : Env) :
    ∀ (n : Nat) (s : S), (stretch_loop e n s).2.sclIdx ≤ s.sclIdx + n := by
  intro n
  induction n with
  | zero => intro s; simp [stretch_loop]
  | succ m ih =>
    intro s
    by_cases h : e.scl s.sclIdx
    · simp [stretch_loop, readSCL, h]
    · simp only [stretch_loop, readSCL, h]
      calc (stretch_loop e m { s with sclIdx := s.sclIdx + 1 }).2.sclIdx
          ≤ s.sclIdx + 1 + m := ih _
        _ ≤ s.sclIdx + (m + 1) := by omega

theorem clock_stretching_core (e : Env) (s : S) :
    (clock_stretching e s).2.busy = s.busy
      ∧ (clock_stretching e s).2.start = s.start
      ∧ (clock_stretching e s).2.sdaIdx = s.sdaIdx :=
  stretch_loop_core e CLOCK_STRETCHING_RETRY_MAX s

theorem write_bit_elim (e : Env) (v : Bool) (s : S) (ok : Bool) (t : Trace) (s' : S)
    (h : write_bit e v s = (ok, t, s')) :
    (ok = true → t = [Ev.bitSent v]) ∧ (ok = false → t = [])
      ∧ s'.busy = s.busy ∧ s'.start = s.start := by
  rcases hq : clock_stretching e s with ⟨okq, sq⟩
  have hc := clock_stretching_core e s
  rw [hq] at hc
  cases okq
  · simp only [write_bit, hq] at h
    simp at h
    obtain ⟨h1, h2, h3⟩ := h
    subst h1; subst h2; subst h3
    simp_all
  · simp only [write_bit, hq] at h
    simp at h
    obtain ⟨h1, h2, h3⟩ := h
    subst h1; subst h2; subst h3
    simp_all

theorem read_bit_elim (e : Env) (s : S) (ok v : Bool) (t : Trace) (s' : S)
    (h : read_bit e s = ((ok, v), t, s')) :
    (ok = true → t = [Ev.bitRecv v]) ∧ (ok = false → t = [])
      ∧ s'.busy = s.busy ∧ s'.start = s.start := by
  rcases hq : clock_stretching e s with ⟨okq, sq⟩
  have hc := clock_stretching_core e s
  rw [hq] at hc
  cases okq
  · simp only [read_bit, hq] at h
    simp at h
    obtain ⟨⟨h1, h2⟩, h3, h4⟩ := h
    subst h1; subst h3; subst h4
    simp_all
  · simp only [read_bit, hq] at h
    simp [readSDA] at h
    obtain ⟨⟨h1, h2⟩, h3, h4⟩ := h
    subst h1; subst h3; subst h4
    simp_all [readSDA]

theorem write_bit_any (e : Env) (v : Bool) (s : S) :
    (write_bit e v s).2.1.filter isCond = []
      ∧ (write_bit e v s).2.1.filterMap sentByteOf = []
      ∧ (write_bit e v s).2.2.busy = s.busy
      ∧ (write_bit e v s).2.2.start = s.start := by
  rcases h : write_bit e v s with ⟨ok, t, s'⟩
  have He := write_bit_elim e v s ok t s' h
  cases ok
  · have ht := He.2.1 rfl
    subst ht
    simp [He.2.2.1, He.2.2.2]
  · have ht := He.1 rfl
    subst ht
    simp [isCond, sentByteOf, He.2.2.1, He.2.2.2]

theorem send_bits_succ (e : Env) :
    ∀ (l : List Bool) (s : S) (t : Trace) (s' : S),
      send_bits e l s = (true, t, s') →
      t = l.map Ev.bitSent ∧ s'.busy = s.busy ∧ s'.start = s.start := by
  intro l
  induction l with
  | nil =>
    intro s t s' h
    simp [send_bits] at h
    obtain ⟨h1, h2⟩ := h
    subst h1; subst h2; simp
  | cons v vs ih =>
    intro s t s' h
    simp only [send_bits] at h
    rcases hw : write_bit e v s with ⟨okw, tw, sw⟩
    rw [hw] at h
    have Hw := write_bit_elim e v s okw tw sw hw
    cases okw
    · simp at h
    · simp at h
      rcases hs2 : send_bits e vs sw with ⟨ok2, t2, s2⟩
      rw [hs2] at h
      simp at h
      obtain ⟨hok, ht, hs'⟩ := h
      subst hok; subst ht; subst hs'
      obtain ⟨htw, hb, hst⟩ := ih sw t2 s2 hs2
      subst htw
      have h1 := Hw.1 rfl
      subst h1
      refine ⟨by simp, ?_, ?_⟩
      · rw [hb, Hw.2.2.1]
      · rw [hst, Hw.2.2.2]

theorem send_bits_any (e : Env) :
    ∀ (l : List Bool) (s : S),
      (send_bits e l s).2.1.filter isCond = []
        ∧ (send_bits e l s).2.1.filterMap sentByteOf = []
        ∧ (send_bits e l s).2.2.busy = s.busy
        ∧ (send_bits e l s).2.2.start = s.start := by
  intro l
  induction l with
  | nil => intro s; simp [send_bits]
  | cons v vs ih =>
    intro s
    have Hw := write_bit_any e v s
    rcases hw : write_bit e v s with ⟨okw, tw, sw⟩
    rw [hw] at Hw
    simp only at Hw
    cases okw
    · simp only [send_bits, hw]
      exact Hw
    · have Hs := ih sw
      rcases hs2 : send_bits e vs sw with ⟨ok2, t2, s2⟩
      rw [hs2] at Hs
      simp only at Hs
      simp only [send_bits, hw, hs2, List.filter_append, List.filterMap_append]
      refine ⟨?_, ?_, ?_, ?_⟩
      · rw [Hw.1, Hs.1]; rfl
      · rw [Hw.2.1, Hs.2.1]; rfl
      · rw [Hs.2.2.1, Hw.2.2.1]
      · rw [Hs.2.2.2, Hw.2.2.2]

theorem write_byte_succ (e : Env) (b : Nat) (s : S) (nk : Bool) (t : Trace) (s' : S)
    (h : write_byte e b s = ((true, nk), t, s')) :
    t = (msbBits b).map Ev.bitSent ++ [Ev.bitRecv nk, Ev.byteSent (b % 256)]
      ∧ s'.busy = s.busy ∧ s'.start = s.start := by
  simp only [write_byte] at h
  rcases h1 : send_bits e (msbBits b) s with ⟨ok1, t1, s1⟩
  rw [h1] at h
  cases ok1
  · simp at h
  · simp at h
    rcases h2 : read_bit e s1 with ⟨⟨ok2, v⟩, t2, s2⟩
    rw [h2] at h
    have Hr := read_bit_elim e s1 ok2 v t2 s2 h2
    cases ok2
    · simp at h
    · simp at h
      obtain ⟨hnk, ht, hs'⟩ := h
      subst hnk; subst ht; subst hs'
      obtain ⟨ht1, hb1, hst1⟩ := send_bits_succ e (msbBits b) s t1 s1 h1
      subst ht1
      have ht2 := Hr.1 rfl
      subst ht2
      refine ⟨by simp, ?_, ?_⟩
      · rw [Hr.2.2.1, hb1]
      · rw [Hr.2.2.2, hst1]

theorem write_byte_any (e : Env) (b : Nat) (s : S) :
    (write_byte e b s).2.1.filter isCond = []
      ∧ (write_byte e b s).2.2.busy = s.busy
      ∧ (write_byte e b s).2.2.start = s.start := by
  have Hs := send_bits_any e (msbBits b) s
  rcases h1 : send_bits e (msbBits b) s with ⟨ok1, t1, s1⟩
  rw [h1] at Hs
  simp only at Hs
  cases ok1
  · simp only [write_byte, h1]
    exact ⟨Hs.1, Hs.2.2.1, Hs.2.2.2⟩
  · have Hr := read_bit_elim e s1
    rcases h2 : read_bit e s1 with ⟨⟨ok2, v⟩, t2, s2⟩
    have Hr2 := read_bit_elim e s1 ok2 v t2 s2 h2
    cases ok2
    · have ht2 := Hr2.2.1 rfl
      subst ht2
      simp only [write_byte, h1, h2, List.filter_append]
      refine ⟨?_, ?_, ?_⟩
      · rw [Hs.1]; rfl
      · rw [Hr2.2.2.1, Hs.2.2.1]
      · rw [Hr2.2.2.2, Hs.2.2.2]
    · have ht2 := Hr2.1 rfl
      subst ht2
      simp only [write_byte, h1, h2, List.filter_append]
      refine ⟨?_, ?_, ?_⟩
      · rw [Hs.1]; simp [isCond]
      · rw [Hr2.2.2.1, Hs.2.2.1]
      · rw [Hr2.2.2.2, Hs.2.2.2]

theorem recv_bits_succ (e : Env) :
    ∀ (n acc : Nat) (s : S) (b : Nat) (t : Trace) (s' : S),
      recv_bits e n acc s = ((true, b), t, s') →
      t.filterMap sentBitOf = [] ∧ t.filterMap sentByteOf = []
        ∧ t.filter isCond = [] ∧ s'.busy = s.busy ∧ s'.start = s.start := by
  intro n
  induction n with
  | zero =>
    intro acc s b t s' h
    simp [recv_bits] at h
    obtain ⟨h1, h2, h3⟩ := h
    subst h2; subst h3; simp
  | succ m ih =>
    intro acc s b t s' h
    simp only [recv_bits] at h
    rcases h1 : read_bit e s with ⟨⟨ok1, v⟩, t1, s1⟩
    rw [h1] at h
    have Hr := read_bit_elim e s ok1 v t1 s1 h1
    cases ok1
    · simp at h
    · simp at h
      rcases h2 : recv_bits e m (2 * acc + v.toNat) s1 with ⟨⟨ok2, b2⟩, t2, s2⟩
      rw [h2] at h
      simp at h
      obtain ⟨⟨hok, hb⟩, ht, hs'⟩ := h
      subst hok; subst ht; subst hs'
      obtain ⟨hm1, hm2, hm3, hm4, hm5⟩ := ih (2 * acc + v.toNat) s1 b2 t2 s2 h2
      have ht1 := Hr.1 rfl
      subst ht1
      simp only [List.filterMap_append, List.filter_append]
      refine ⟨?_, ?_, ?_, ?_, ?_⟩
      · rw [hm1]; simp [sentBitOf]
      · rw [hm2]; simp [sentByteOf]
      · rw [hm3]; simp [isCond]
      · rw [hm4, Hr.2.2.1]
      · rw [hm5, Hr.2.2.2]

theorem read_byte_succ (e : Env) (ack : Bool) (s : S) (b : Nat) (t : Trace) (s' : S)
    (h : read_byte e ack s = ((true, b), t, s')) :
    t.filterMap sentBitOf = [!ack] ∧ t.filterMap sentByteOf = []
      ∧ t.filter isCond = [] ∧ s'.busy = s.busy ∧ s'.start = s.start := by
  simp only [read_byte] at h
  rcases h1 : recv_bits e 8 0 s with ⟨⟨ok1, b1⟩, t1, s1⟩
  rw [h1] at h
  cases ok1
  · simp at h
  · simp at h
    rcases h2 : write_bit e (!ack) s1 with ⟨ok2, t2, s2⟩
    rw [h2] at h
    have Hw := write_bit_elim e (!ack) s1 ok2 t2 s2 h2
    cases ok2
    · simp at h
    · simp at h
      obtain ⟨hb, ht, hs'⟩ := h
      subst hb; subst ht; subst hs'
      obtain ⟨hm1, hm2, hm3, hm4, hm5⟩ := recv_bits_succ e 8 0 s b1 t1 s1 h1
      have ht2 := Hw.1 rfl
      subst ht2
      simp only [List.filterMap_append, List.filter_append]
      refine ⟨?_, ?_, ?_, ?_, ?_⟩
      · rw [hm1]; simp [List.filterMap_cons]
      · rw [hm2]; simp [List.filterMap_cons]
      · rw [hm3]; simp [List.filter_cons]
      · rw [Hw.2.2.1, hm4]
      · rw [Hw.2.2.2, hm5]

theorem ackSeq_cons (r : Nat) : (!(r != 0)) :: ackSeq r = ackSeq (r + 1) := by
  cases r with
  | zero => simp [ackSeq]
  | succ m => simp [ackSeq, List.replicate_succ]

theorem read_loop_succ (e : Env) :
    ∀ (n : Nat) (ds : List Nat) (s : S) (ds' : List Nat) (t : Trace) (s' : S),
      read_loop e n ds s = ((true, ds'), t, s') →
      ds'.length = ds.length + n ∧ t.filterMap sentBitOf = ackSeq n
        ∧ t.filterMap sentByteOf = [] ∧ t.filter isCond = []
        ∧ s'.busy = s.busy ∧ s'.start = s.start := by
  intro n
  induction n with
  | zero =>
    intro ds s ds' t s' h
    simp [read_loop] at h
    obtain ⟨h1, h2, h3⟩ := h
    subst h1; subst h2; subst h3
    simp [ackSeq]
  | succ r ih =>
    intro ds s ds' t s' h
    simp only [read_loop] at h
    rcases h1 : read_byte e (r != 0) s with ⟨⟨ok1, d⟩, t1, s1⟩
    rw [h1] at h
    cases ok1
    · simp at h
    · simp at h
      rcases h2 : read_loop e r (ds ++ [d]) s1 with ⟨⟨ok2, ds2⟩, t2, s2⟩
      rw [h2] at h
      simp at h
      obtain ⟨⟨hok, hds⟩, ht, hs'⟩ := h
      subst hok; subst hds; subst ht; subst hs'
      obtain ⟨hl, hm1, hm2, hm3, hm4, hm5⟩ := ih (ds ++ [d]) s1 ds2 t2 s2 h2
      obtain ⟨hb1, hb2, hb3, hb4, hb5⟩ := read_byte_succ e (r != 0) s d t1 s1 h1
      simp only [List.filterMap_append, List.filter_append]
      refine ⟨?_, ?_, ?_, ?_, ?_, ?_⟩
      · simp at hl; omega
      · rw [hm1, hb1]; exact ackSeq_cons r
      · rw [hm2, hb2]; rfl
      · rw [hm3, hb3]; rfl
      · rw [hm4, hb4]
      · rw [hm5, hb5]

theorem repeated_start_elim (e : Env) (s : S) (ok : Bool) (t : Trace) (s' : S)
    (h : repeated_start_condition e s = (ok, t, s')) :
    (ok = true → t = [Ev.repStart]) ∧ (ok = false → t = [])
      ∧ s'.busy = s.busy ∧ s'.start = s.start := by
  cases hv : e.sda s.sdaIdx
  · simp [repeated_start_condition, readSDA, hv] at h
    obtain ⟨h1, h2, h3⟩ := h
    subst h1; subst h2; subst h3
    simp
  · simp [repeated_start_condition, readSDA, hv] at h
    obtain ⟨h1, h2, h3⟩ := h
    subst h1; subst h2; subst h3
    simp

theorem read_succ (e : Env) (a n : Nat) (s : S) (r : Int) (ds : List Nat)
    (t : Trace) (s' : S)
    (h : Software.read e a n s = ((r, ds), t, s')) (hr : 0 ≤ r) :
    r = Int.ofNat n ∧ ds.length = n
      ∧ t.filterMap sentByteOf = [(a ||| 1) % 256]
      ∧ t.filterMap sentBitOf = msbBits (a ||| 1) ++ ackSeq n
      ∧ (s.start = true → t.filter isCond = [])
      ∧ (s.start = false →
          t.head? = some Ev.repStart ∧ t.filter isCond = [Ev.repStart])
      ∧ s'.busy = s.busy ∧ s'.start = false := by
  cases hst : s.start
  · simp only [Software.read, hst, Bool.false_eq_true, if_false] at h
    rcases h0 : repeated_start_condition e s with ⟨ok0, t0, s0⟩
    rw [h0] at h
    have H0 := repeated_start_elim e s ok0 t0 s0 h0
    cases ok0
    · simp at h
      obtain ⟨⟨hr1, hr2⟩, ht, hs'⟩ := h
      subst hr1
      simp at hr
    · simp at h
      have ht0 := H0.1 rfl
      subst ht0
      rcases h1 : write_byte e (a ||| 1) { s0 with start := false }
        with ⟨⟨ok1, nk⟩, t1, s1⟩
      rw [h1] at h
      cases ok1
      · simp at h
        obtain ⟨⟨hr1, hr2⟩, ht, hs'⟩ := h
        subst hr1
        simp at hr
      · cases nk
        · simp at h
          rcases h2 : read_loop e n [] s1 with ⟨⟨ok2, ds2⟩, t2, s2⟩
          rw [h2] at h
          cases ok2
          · simp at h
            obtain ⟨⟨hr1, hr2⟩, ht, hs'⟩ := h
            subst hr1
            simp at hr
          · simp at h
            obtain ⟨⟨hr1, hr2⟩, ht, hs'⟩ := h
            subst hr1; subst hr2; subst ht; subst hs'
            obtain ⟨hw1, hw2, hw3⟩ :=
              write_byte_succ e (a ||| 1) { s0 with start := false } false t1 s1 h1
            obtain ⟨hl2, hl3, hl4, hl5, hl6, hl7⟩ := read_loop_succ e n [] s1 ds2 t2 s2 h2
            subst hw1
            refine ⟨rfl, by simpa using hl2, ?_, ?_, ?_, ?_, ?_, ?_⟩
            · simp [List.filterMap_append, List.filterMap_cons,
                filterMap_sentByte_bits, filterMap_comp_sentByte, hl4]
            · simp [List.filterMap_append, List.filterMap_cons,
                filterMap_sentBit_bits, filterMap_comp_sentBit, hl3]
            · simp
            · intro _
              constructor
              · simp
              · simp [List.filter_append, List.filter_cons,
                  filter_isCond_bits, filter_comp_isCond, hl5]
            · rw [hl6, hw2]
              simp [H0.2.2.1]
            · rw [hl7, hw3]
        · simp at h
          obtain ⟨⟨hr1, hr2⟩, ht, hs'⟩ := h
          subst hr1
          simp at hr
  · simp only [Software.read, hst, if_true] at h
    simp at h
    rcases h1 : write_byte e (a ||| 1) { s with start := false }
      with ⟨⟨ok1, nk⟩, t1, s1⟩
    rw [h1] at h
    cases ok1
    · simp at h
      obtain ⟨⟨hr1, hr2⟩, ht, hs'⟩ := h
      subst hr1
      simp at hr
    · cases nk
      · simp at h
        rcases h2 : read_loop e n [] s1 with ⟨⟨ok2, ds2⟩, t2, s2⟩
        rw [h2] at h
        cases ok2
        · simp at h
          obtain ⟨⟨hr1, hr2⟩, ht, hs'⟩ := h
          subst hr1
          simp at hr
        · simp at h
          obtain ⟨⟨hr1, hr2⟩, ht, hs'⟩ := h
          subst hr1; subst hr2; subst ht; subst hs'
          obtain ⟨hw1, hw2, hw3⟩ :=
            write_byte_succ e (a ||| 1) { s with start := false } false t1 s1 h1
          obtain ⟨hl2, hl3, hl4, hl5, hl6, hl7⟩ := read_loop_succ e n [] s1 ds2 t2 s2 h2
          subst hw1
          refine ⟨rfl, by simpa using hl2, ?_, ?_, ?_, ?_, ?_, ?_⟩
          · simp [List.filterMap_append, List.filterMap_cons,
              filterMap_sentByte_bits, filterMap_comp_sentByte, hl4]
          · simp [List.filterMap_append, List.filterMap_cons,
              filterMap_sentBit_bits, filterMap_comp_sentBit, hl3]
          · intro _
            simp [List.filter_append, List.filter_cons,
              filter_isCond_bits, filter_comp_isCond, hl5]
          · simp
          · rw [hl6, hw2]
          · rw [hl7, hw3]
      · simp at h
        obtain ⟨⟨hr1, hr2⟩, ht, hs'⟩ := h
        subst hr1
        simp at hr

theorem send_data_succ (e : Env) :
    ∀ (l : List Nat) (s : S) (t : Trace) (s' : S),
      send_data e l s = (true, t, s') →
      t.filterMap sentByteOf = l.map (fun d => d % 256)
        ∧ t.filter isCond = [] ∧ s'.busy = s.busy ∧ s'.start = s.start := by
  intro l
  induction l with
  | nil =>
    intro s t s' h
    simp [send_data] at h
    obtain ⟨h1, h2⟩ := h
    subst h1; subst h2; simp
  | cons d ds ih =>
    intro s t s' h
    simp only [send_data] at h
    rcases h1 : write_byte e d s with ⟨⟨ok1, nk⟩, t1, s1⟩
    rw [h1] at h
    cases ok1
    · simp at h
    · cases nk
      · simp at h
        rcases h2 : send_data e ds s1 with ⟨ok2, t2, s2⟩
        rw [h2] at h
        simp at h
        obtain ⟨hok, ht, hs'⟩ := h
        subst hok; subst ht; subst hs'
        obtain ⟨hm1, hm2, hm3, hm4⟩ := ih s1 t2 s2 h2
        obtain ⟨hw1, hw2, hw3⟩ := write_byte_succ e d s false t1 s1 h1
        subst hw1
        refine ⟨?_, ?_, ?_, ?_⟩
        · simp [List.filterMap_append, List.filterMap_cons,
            filterMap_sentByte_bits, filterMap_comp_sentByte, hm1]
        · simp [List.filter_append, List.filter_cons,
            filter_isCond_bits, filter_comp_isCond, hm2]
        · rw [hm3, hw2]
        · rw [hm4, hw3]
      · simp at h

theorem send_data_any (e : Env) :
    ∀ (l : List Nat) (s : S),
      (send_data e l s).2.1.filter isCond = []
        ∧ (send_data e l s).2.2.busy = s.busy
        ∧ (send_data e l s).2.2.start = s.start := by
  intro l
  induction l with
  | nil => intro s; simp [send_data]
  | cons d ds ih =>
    intro s
    have Hw := write_byte_any e d s
    rcases h1 : write_byte e d s with ⟨⟨ok1, nk⟩, t1, s1⟩
    rw [h1] at Hw
    simp only at Hw
    cases ok1
    · simp only [send_data, h1]
      exact Hw
    · cases nk
      · have Hs := ih s1
        rcases h2 : send_data e ds s1 with ⟨ok2, t2, s2⟩
        rw [h2] at Hs
        simp only at Hs
        simp only [send_data, h1, h2, List.filter_append]
        refine ⟨?_, ?_, ?_⟩
        · rw [Hw.1, Hs.1]; rfl
        · rw [Hs.2.1, Hw.2.1]
        · rw [Hs.2.2, Hw.2.2]
      · simp only [send_data, h1]
        exact Hw

theorem write_vec_any (e : Env) :
    ∀ (vec : List Seg) (c : Int) (s : S),
      (write_vec e vec c s).2.1.filter isCond = []
        ∧ (write_vec e vec c s).2.2.busy = s.busy
        ∧ (write_vec e vec c s).2.2.start = s.start := by
  intro vec
  induction vec with
  | nil => intro c s; simp [write_vec]
  | cons sg rest ih =>
    intro c s
    cases sg with
    | none => simp [write_vec]
    | some data =>
      have Hd := send_data_any e data s
      rcases h1 : send_data e data s with ⟨ok1, t1, s1⟩
      rw [h1] at Hd
      simp only at Hd
      cases ok1
      · simp only [write_vec, h1]
        exact Hd
      · have Hv := ih (c + data.length) s1
        rcases h2 : write_vec e rest (c + data.length) s1 with ⟨r2, t2, s2⟩
        rw [h2] at Hv
        simp only at Hv
        simp only [write_vec, h1, h2, List.filter_append]
        refine ⟨?_, ?_, ?_⟩
        · rw [Hd.1, Hv.1]; rfl
        · rw [Hv.2.1, Hd.2.1]
        · rw [Hv.2.2, Hd.2.2]

theorem write_vec_succ (e : Env) :
    ∀ (segs : List (List Nat)) (c : Int) (s : S) (r : Int) (t : Trace) (s' : S),
      write_vec e (segs.map some) c s = (r, t, s') → 0 ≤ c → 0 ≤ r →
      r = c + Int.ofNat (segs.map List.length).sum
        ∧ t.filterMap sentByteOf = segs.join.map (fun d => d % 256)
        ∧ t.filter isCond = [] ∧ s'.busy = s.busy ∧ s'.start = s.start := by
  intro segs
  induction segs with
  | nil =>
    intro c s r t s' h hc hr
    simp [write_vec] at h
    obtain ⟨h1, h2, h3⟩ := h
    subst h1; subst h2; subst h3
    simp
  | cons seg rest ih =>
    intro c s r t s' h hc hr
    simp only [List.map_cons, write_vec] at h
    rcases h1 : send_data e seg s with ⟨ok1, t1, s1⟩
    rw [h1] at h
    cases ok1
    · simp at h
      obtain ⟨h2, h3, h4⟩ := h
      subst h2
      simp at hr
    · simp at h
      rcases h2 : write_vec e (rest.map some) (c + seg.length) s1 with ⟨r2, t2, s2⟩
      rw [h2] at h
      simp at h
      obtain ⟨hrr, ht, hs'⟩ := h
      subst hrr; subst ht; subst hs'
      have hc2 : (0 : Int) ≤ c + seg.length := by positivity
      obtain ⟨hv1, hv2, hv3, hv4, hv5⟩ := ih (c + seg.length) s1 r2 t2 s2 h2 hc2 hr
      obtain ⟨hd1, hd2, hd3, hd4⟩ := send_data_succ e seg s t1 s1 h1
      refine ⟨?_, ?_, ?_, ?_, ?_⟩
      · rw [hv1]
        simp [Int.ofNat_eq_natCast]
        push_cast
        ring
      · simp [List.filterMap_append, hd1, hv2]
      · simp [List.filter_append, hd2, hv3]
      · rw [hv4, hd3]
      · rw [hv5, hd4]

theorem write_succ (e : Env) (a : Nat) (segs : List (List Nat)) (s : S)
    (r : Int) (t : Trace) (s' : S)
    (h : Software.write e a (some (segs.map some)) s = (r, t, s')) (hr : 0 ≤ r) :
    r = Int.ofNat (segs.map List.length).sum
      ∧ t.filterMap sentByteOf = a % 256 :: segs.join.map (fun d => d % 256)
      ∧ (s.start = true → t.filter isCond = [])
      ∧ (s.start = false →
          t.head? = some Ev.repStart ∧ t.filter isCond = [Ev.repStart])
      ∧ s'.busy = s.busy ∧ s'.start = false := by
  cases hst : s.start
  · simp only [Software.write, hst, Bool.false_eq_true, if_false] at h
    rcases h0 : repeated_start_condition e s with ⟨ok0, t0, s0⟩
    rw [h0] at h
    have H0 := repeated_start_elim e s ok0 t0 s0 h0
    cases ok0
    · simp at h
      obtain ⟨hr1, ht, hs'⟩ := h
      subst hr1
      simp at hr
    · simp at h
      have ht0 := H0.1 rfl
      subst ht0
      rcases h1 : write_byte e a { s0 with start := false }
        with ⟨⟨ok1, nk⟩, t1, s1⟩
      rw [h1] at h
      cases ok1
      · simp at h
        obtain ⟨hr1, ht, hs'⟩ := h
        subst hr1
        simp at hr
      · cases nk
        · simp at h
          rcases h2 : write_vec e (segs.map some) 0 s1 with ⟨r2, t2, s2⟩
          rw [h2] at h
          simp at h
          obtain ⟨hr1, ht, hs'⟩ := h
          subst hr1; subst ht; subst hs'
          obtain ⟨hw1, hw2, hw3⟩ := write_byte_succ e a { s0 with start := false } false t1 s1 h1
          obtain ⟨hv1, hv2, hv3, hv4, hv5⟩ :=
            write_vec_succ e segs 0 s1 r2 t2 s2 h2 (by norm_num) hr
          subst hw1
          refine ⟨by rw [hv1]; simp, ?_, ?_, ?_, ?_, ?_⟩
          · simp [List.filterMap_append, List.filterMap_cons,
              filterMap_sentByte_bits, filterMap_comp_sentByte, hv2]
          · simp
          · intro _
            constructor
            · simp
            · simp [List.filter_append, List.filter_cons,
                filter_isCond_bits, filter_comp_isCond, hv3]
          · rw [hv4, hw2]
            simp [H0.2.2.1]
          · rw [hv5, hw3]
        · simp at h
          obtain ⟨hr1, ht, hs'⟩ := h
          subst hr1
          simp at hr
  · simp only [Software.write, hst, if_true] at h
    simp at h
    rcases h1 : write_byte e a { s with start := false }
      with ⟨⟨ok1, nk⟩, t1, s1⟩
    rw [h1] at h
    cases ok1
    · simp at h
      obtain ⟨hr1, ht, hs'⟩ := h
      subst hr1
      simp at hr
    · cases nk
      · simp at h
        rcases h2 : write_vec e (segs.map some) 0 s1 with ⟨r2, t2, s2⟩
        rw [h2] at h
        simp at h
        obtain ⟨hr1, ht, hs'⟩ := h
        subst hr1; subst ht; subst hs'
        obtain ⟨hw1, hw2, hw3⟩ := write_byte_succ e a { s with start := false } false t1 s1 h1
        obtain ⟨hv1, hv2, hv3, hv4, hv5⟩ :=
          write_vec_succ e segs 0 s1 r2 t2 s2 h2 (by norm_num) hr
        subst hw1
        refine ⟨by rw [hv1]; simp, ?_, ?_, ?_, ?_, ?_⟩
        · simp [List.filterMap_append, List.filterMap_cons,
            filterMap_sentByte_bits, filterMap_comp_sentByte, hv2]
        · intro _
          simp [List.filter_append, List.filter_cons,
            filter_isCond_bits, filter_comp_isCond, hv3]
        · simp
        · rw [hv4, hw2]
        · rw [hv5, hw3]
      · simp at h
        obtain ⟨hr1, ht, hs'⟩ := h
        subst hr1
        simp at hr

theorem recv_bits_any (e : Env) :
    ∀ (n acc : Nat) (s : S),
      (recv_bits e n acc s).2.2.busy = s.busy
        ∧ (recv_bits e n acc s).2.2.start = s.start := by
  intro n
  induction n with
  | zero => intro acc s; simp [recv_bits]
  | succ m ih =>
    intro acc s
    rcases h1 : read_bit e s with ⟨⟨ok1, v⟩, t1, s1⟩
    have H1 := read_bit_elim e s ok1 v t1 s1 h1
    cases ok1
    · simp only [recv_bits, h1]
      exact ⟨H1.2.2.1, H1.2.2.2⟩
    · have Hr := ih (2 * acc + v.toNat) s1
      rcases h2 : recv_bits e m (2 * acc + v.toNat) s1 with ⟨⟨ok2, b2⟩, t2, s2⟩
      rw [h2] at Hr
      simp only at Hr
      simp only [recv_bits, h1, h2]
      exact ⟨Hr.1.trans H1.2.2.1, Hr.2.trans H1.2.2.2⟩

theorem read_byte_any (e : Env) (ack : Bool) (s : S) :
    (read_byte e ack s).2.2.busy = s.busy
      ∧ (read_byte e ack s).2.2.start = s.start := by
  have Hm := recv_bits_any e 8 0 s
  rcases h1 : recv_bits e 8 0 s with ⟨⟨ok1, b1⟩, t1, s1⟩
  rw [h1] at Hm
  simp only at Hm
  cases ok1
  · simp only [read_byte, h1]
    exact Hm
  · rcases h2 : write_bit e (!ack) s1 with ⟨ok2, t2, s2⟩
    have H2 := write_bit_elim e (!ack) s1 ok2 t2 s2 h2
    cases ok2
    · simp only [read_byte, h1, h2]
      exact ⟨H2.2.2.1.trans Hm.1, H2.2.2.2.trans Hm.2⟩
    · simp only [read_byte, h1, h2]
      exact ⟨H2.2.2.1.trans Hm.1, H2.2.2.2.trans Hm.2⟩

theorem read_loop_any (e : Env) :
    ∀ (n : Nat) (ds : List Nat) (s : S),
      (read_loop e n ds s).2.2.busy = s.busy
        ∧ (read_loop e n ds s).2.2.start = s.start := by
  intro n
  induction n with
  | zero => intro ds s; simp [read_loop]
  | succ r ih =>
    intro ds s
    have Hb := read_byte_any e (r != 0) s
    rcases h1 : read_byte e (r != 0) s with ⟨⟨ok1, d⟩, t1, s1⟩
    rw [h1] at Hb
    simp only at Hb
    cases ok1
    · simp only [read_loop, h1]
      exact Hb
    · have Hl := ih (ds ++ [d]) s1
      rcases h2 : read_loop e r (ds ++ [d]) s1 with ⟨⟨ok2, ds2⟩, t2, s2⟩
      rw [h2] at Hl
      simp only at Hl
      simp only [read_loop, h1, h2]
      exact ⟨Hl.1.trans Hb.1, Hl.2.trans Hb.2⟩

theorem read_busy_any (e : Env) (a n : Nat) (s : S) :
    (Software.read e a n s).2.2.busy = s.busy := by
  cases hst : s.start
  · simp only [Software.read, hst, Bool.false_eq_true, if_false]
    rcases h0 : repeated_start_condition e s with ⟨ok0, t0, s0⟩
    have H0 := repeated_start_elim e s ok0 t0 s0 h0
    cases ok0
    · simp only
      exact H0.2.2.1
    · simp only
      have Hw := write_byte_any e (a ||| 1) { s0 with start := false }
      rcases h1 : write_byte e (a ||| 1) { s0 with start := false }
        with ⟨⟨ok1, nk⟩, t1, s1⟩
      rw [h1] at Hw
      simp only at Hw
      cases ok1
      · simpa using Hw.2.1.trans H0.2.2.1
      · cases nk
        · have Hl := read_loop_any e n [] s1
          rcases h2 : read_loop e n [] s1 with ⟨⟨ok2, ds2⟩, t2, s2⟩
          rw [h2] at Hl
          simp only at Hl
          cases ok2
          · simpa [h2] using (Hl.1.trans Hw.2.1).trans H0.2.2.1
          · simpa [h2] using (Hl.1.trans Hw.2.1).trans H0.2.2.1
        · simpa using Hw.2.1.trans H0.2.2.1
  · simp only [Software.read, hst, if_true]
    have Hw := write_byte_any e (a ||| 1) { s with start := false }
    rcases h1 : write_byte e (a ||| 1) { s with start := false }
      with ⟨⟨ok1, nk⟩, t1, s1⟩
    rw [h1] at Hw
    simp only at Hw
    cases ok1
    · simpa using Hw.2.1
    · cases nk
      · have Hl := read_loop_any e n [] s1
        rcases h2 : read_loop e n [] s1 with ⟨⟨ok2, ds2⟩, t2, s2⟩
        rw [h2] at Hl
        simp only at Hl
        cases ok2
        · simpa [h2] using Hl.1.trans Hw.2.1
        · simpa [h2] using Hl.1.trans Hw.2.1
      · simpa using Hw.2.1

theorem write_busy_any (e : Env) (a : Nat) (vp : Option (List Seg)) (s : S) :
    (Software.write e a vp s).2.2.busy = s.busy := by
  cases hst : s.start
  · simp only [Software.write, hst, Bool.false_eq_true, if_false]
    rcases h0 : repeated_start_condition e s with ⟨ok0, t0, s0⟩
    have H0 := repeated_start_elim e s ok0 t0 s0 h0
    cases ok0
    · simp only
      exact H0.2.2.1
    · simp only
      have Hw := write_byte_any e a { s0 with start := false }
      rcases h1 : write_byte e a { s0 with start := false }
        with ⟨⟨ok1, nk⟩, t1, s1⟩
      rw [h1] at Hw
      simp only at Hw
      cases ok1
      · simpa using Hw.2.1.trans H0.2.2.1
      · cases nk
        · cases vp with
          | none => simpa using Hw.2.1.trans H0.2.2.1
          | some vec =>
            have Hv := write_vec_any e vec 0 s1
            rcases h2 : write_vec e vec 0 s1 with ⟨r2, t2, s2⟩
            rw [h2] at Hv
            simp only at Hv
            simpa [h2] using (Hv.2.1.trans Hw.2.1).trans H0.2.2.1
        · simpa using Hw.2.1.trans H0.2.2.1
  · simp only [Software.write, hst, if_true]
    have Hw := write_byte_any e a { s with start := false }
    rcases h1 : write_byte e a { s with start := false }
      with ⟨⟨ok1, nk⟩, t1, s1⟩
    rw [h1] at Hw
    simp only at Hw
    cases ok1
    · simpa using Hw.2.1
    · cases nk
      · cases vp with
        | none => simpa using Hw.2.1
        | some vec =>
          have Hv := write_vec_any e vec 0 s1
          rcases h2 : write_vec e vec 0 s1 with ⟨r2, t2, s2⟩
          rw [h2] at Hv
          simp only at Hv
          simpa [h2] using Hv.2.1.trans Hw.2.1
      · simpa using Hw.2.1

theorem write_start_quiet (e : Env) (a : Nat) (vp : Option (List Seg)) (s : S)
    (hst : s.start = true) :
    (Software.write e a vp s).2.1.filter isCond = []
      ∧ (Software.write e a vp s).2.2.start = false := by
  simp only [Software.write, hst, if_true]
  have Hw := write_byte_any e a { s with start := false }
  rcases h1 : write_byte e a { s with start := false }
    with ⟨⟨ok1, nk⟩, t1, s1⟩
  rw [h1] at Hw
  simp only at Hw
  cases ok1
  · simp only [h1]
    exact ⟨by simpa using Hw.1, by simpa using Hw.2.2⟩
  · cases nk
    · cases vp with
      | none =>
        simp only [h1]
        exact ⟨by simpa using Hw.1, by simpa using Hw.2.2⟩
      | some vec =>
        have Hv := write_vec_any e vec 0 s1
        rcases h2 : write_vec e vec 0 s1 with ⟨r2, t2, s2⟩
        rw [h2] at Hv
        simp only at Hv
        simp only [h1, h2]
        constructor
        · simp only [List.nil_append, List.filter_append]
          rw [Hw.1, Hv.1]
          rfl
        · simpa using Hv.2.2.trans Hw.2.2
    · simp only [h1]
      exact ⟨by simpa using Hw.1, by simpa using Hw.2.2⟩

theorem write_head_succ (e : Env) (a : Nat) (vp : Option (List Seg)) (s : S)
    (r : Int) (t : Trace) (s' : S)
    (h : Software.write e a vp s = (r, t, s')) (hr : 0 ≤ r) :
    (t.filterMap sentByteOf).head? = some (a % 256) := by
  cases hst : s.start
  · simp only [Software.write, hst, Bool.false_eq_true, if_false] at h
    rcases h0 : repeated_start_condition e s with ⟨ok0, t0, s0⟩
    rw [h0] at h
    have H0 := repeated_start_elim e s ok0 t0 s0 h0
    cases ok0
    · simp at h
      obtain ⟨hr1, ht, hs'⟩ := h
      subst hr1
      simp at hr
    · simp at h
      have ht0 := H0.1 rfl
      subst ht0
      rcases h1 : write_byte e a { s0 with start := false } with ⟨⟨ok1, nk⟩, t1, s1⟩
      rw [h1] at h
      cases ok1
      · simp at h
        obtain ⟨hr1, ht, hs'⟩ := h
        subst hr1
        simp at hr
      · cases nk
        · obtain ⟨hw1, hw2, hw3⟩ := write_byte_succ e a { s0 with start := false } false t1 s1 h1
          subst hw1
          cases vp with
          | none =>
            simp at h
            obtain ⟨hr1, ht, hs'⟩ := h
            subst ht
            simp [List.filterMap_append, List.filterMap_cons,
              filterMap_sentByte_bits, filterMap_comp_sentByte]
          | some vec =>
            simp at h
            rcases h2 : write_vec e vec 0 s1 with ⟨r2, t2, s2⟩
            rw [h2] at h
            simp at h
            obtain ⟨hr1, ht, hs'⟩ := h
            subst ht
            simp [List.filterMap_append, List.filterMap_cons,
              filterMap_sentByte_bits, filterMap_comp_sentByte]
        · simp at h
          obtain ⟨hr1, ht, hs'⟩ := h
          subst hr1
          simp at hr
  · simp only [Software.write, hst, if_true] at h
    simp at h
    rcases h1 : write_byte e a { s with start := false } with ⟨⟨ok1, nk⟩, t1, s1⟩
    rw [h1] at h
    cases ok1
    · simp at h
      obtain ⟨hr1, ht, hs'⟩ := h
      subst hr1
      simp at hr
    · cases nk
      · obtain ⟨hw1, hw2, hw3⟩ := write_byte_succ e a { s with start := false } false t1 s1 h1
        subst hw1
        cases vp with
        | none =>
          simp at h
          obtain ⟨hr1, ht, hs'⟩ := h
          subst ht
          simp [List.filterMap_append, List.filterMap_cons,
            filterMap_sentByte_bits, filterMap_comp_sentByte]
        | some vec =>
          simp at h
          rcases h2 : write_vec e vec 0 s1 with ⟨r2, t2, s2⟩
          rw [h2] at h
          simp at h
          obtain ⟨hr1, ht, hs'⟩ := h
          subst ht
          simp [List.filterMap_append, List.filterMap_cons,
            filterMap_sentByte_bits, filterMap_comp_sentByte]
      · simp at h
        obtain ⟨hr1, ht, hs'⟩ := h
        subst hr1
        simp at hr

theorem stop_condition_core (e : Env) (s : S) :
    (stop_condition e s).2.2.busy = s.busy
      ∧ (stop_condition e s).2.2.start = s.start := by
  rcases hq : clock_stretching e s with ⟨okq, sq⟩
  have hc := clock_stretching_core e s
  rw [hq] at hc
  simp only at hc
  cases okq
  · simp [stop_condition, hq, hc.1, hc.2.1]
  · simp [stop_condition, hq, readSDA, hc.1, hc.2.1]

theorem release_clears (e : Env) (s : S) :
    (Software.release e s).2.2.busy = false
      ∧ (Software.release e s).2.2.start = false := by
  have H := stop_condition_core e { s with start := false, busy := false }
  simp only [Software.release]
  constructor
  · rw [H.1]
  · rw [H.2]

theorem acquire_attempt_sets (e : Env) (s : S) :
    (acquire_attempt e s).2.2.busy = true
      ∧ (acquire_attempt e s).2.2.start = true := by
  cases hv : e.sda s.sdaIdx <;>
    simp [acquire_attempt, start_condition, readSDA, hv]

theorem acquire_busy_none (e : Env) :
    ∀ (fuel : Nat) (s : S), s.busy = true → acquire e fuel s = none := by
  intro fuel
  induction fuel with
  | zero => intro s h; simp [acquire, h]
  | succ f ih => intro s h; simpa [acquire, h] using ih s h

theorem acquire_free_some (e : Env) (fuel : Nat) (s : S) (h : s.busy = false) :
    acquire e fuel s = some (acquire_attempt e s) := by
  cases fuel <;> simp [acquire, h]

theorem stretch_high (e : Env) (m : Nat) (hscl : ∀ k, m ≤ k → e.scl k = true)
    (bu st : Bool) (di ci : Nat) (hci : m ≤ ci) :
    clock_stretching e ⟨bu, st, di, ci⟩ = (true, ⟨bu, st, di, ci + 1⟩) := by
  have h1 : e.scl ci = true := hscl ci hci
  simp only [clock_stretching, CLOCK_STRETCHING_RETRY_MAX]
  rw [show (25 : Nat) = 24 + 1 from rfl]
  simp [stretch_loop, readSCL, h1]

theorem write_bit_high (e : Env) (m : Nat) (hscl : ∀ k, m ≤ k → e.scl k = true)
    (v bu st : Bool) (di ci : Nat) (hci : m ≤ ci) :
    write_bit e v ⟨bu, st, di, ci⟩ = (true, [Ev.bitSent v], ⟨bu, st, di, ci + 1⟩) := by
  simp [write_bit, stretch_high e m hscl bu st di ci hci]

theorem read_bit_high (e : Env) (m : Nat) (hscl : ∀ k, m ≤ k → e.scl k = true)
    (bu st : Bool) (di ci : Nat) (hci : m ≤ ci) :
    read_bit e ⟨bu, st, di, ci⟩ =
      ((true, e.sda di), [Ev.bitRecv (e.sda di)], ⟨bu, st, di + 1, ci + 1⟩) := by
  simp [read_bit, stretch_high e m hscl bu st di ci hci, readSDA]

theorem send_bits_high (e : Env) (m : Nat) (hscl : ∀ k, m ≤ k → e.scl k = true) :
    ∀ (l : List Bool) (bu st : Bool) (di ci : Nat), m ≤ ci →
      send_bits e l ⟨bu, st, di, ci⟩ =
        (true, l.map Ev.bitSent, ⟨bu, st, di, ci + l.length⟩) := by
  intro l
  induction l with
  | nil => intro bu st di ci hci; simp [send_bits]
  | cons v vs ih =>
    intro bu st di ci hci
    have hstep := write_bit_high e m hscl v bu st di ci hci
    have hrest := ih bu st di (ci + 1) (by omega)
    have harith : ci + 1 + vs.length = ci + (vs.length + 1) := by omega
    simp only [send_bits, hstep, hrest, harith]
    simp

theorem write_byte_high (e : Env) (m : Nat) (hscl : ∀ k, m ≤ k → e.scl k = true)
    (b : Nat) (bu st : Bool) (di ci : Nat) (hci : m ≤ ci) :
    write_byte e b ⟨bu, st, di, ci⟩ =
      ((true, e.sda di),
        (msbBits b).map Ev.bitSent ++ [Ev.bitRecv (e.sda di), Ev.byteSent (b % 256)],
        ⟨bu, st, di + 1, ci + 9⟩) := by
  have hbits := send_bits_high e m hscl (msbBits b) bu st di ci hci
  have hrb := read_bit_high e m hscl bu st di (ci + 8) (by omega)
  simp only [write_byte, hbits]
  rw [show (msbBits b).length = 8 from rfl]
  simp only [hrb]
  simp

theorem stop_high (e : Env) (m : Nat) (hscl : ∀ k, m ≤ k → e.scl k = true)
    (bu st : Bool) (di ci : Nat) (hci : m ≤ ci) :
    stop_condition e ⟨bu, st, di, ci⟩ =
      (!(e.sda di), [Ev.stop], ⟨bu, st, di + 1, ci + 1⟩) := by
  simp [stop_condition, stretch_high e m hscl bu st di ci hci, readSDA]

theorem stretchN_at (n : Nat) :
    ∀ (fuel ci : Nat), ci ≤ n → n < ci + fuel →
      ∀ (bu st : Bool) (di : Nat),
        stretch_loop (envStretch n) fuel ⟨bu, st, di, ci⟩ =
          (true, ⟨bu, st, di, n + 1⟩) := by
  intro fuel
  induction fuel with
  | zero => intro ci h1 h2; omega
  | succ f ih =>
    intro ci h1 h2 bu st di
    by_cases hc : n ≤ ci
    · have hceq : ci = n := le_antisymm h1 hc
      subst hceq
      have hh : (envStretch ci).scl ci = true := by simp [envStretch]
      simp [stretch_loop, readSCL, hh]
    · push_neg at hc
      have hh : (envStretch n).scl ci = false := by
        simp [envStretch]; omega
      simp only [stretch_loop, readSCL, hh]
      simpa using ih (ci + 1) (by omega) (by omega) bu st di

theorem stretchN_low (n : Nat) :
    ∀ (fuel ci : Nat), ci + fuel ≤ n →
      ∀ (bu st : Bool) (di : Nat),
        stretch_loop (envStretch n) fuel ⟨bu, st, di, ci⟩ =
          (false, ⟨bu, st, di, ci + fuel⟩) := by
  intro fuel
  induction fuel with
  | zero => intro ci h1 bu st di; simp [stretch_loop]
  | succ f ih =>
    intro ci h1 bu st di
    have hh : (envStretch n).scl ci = false := by
      simp [envStretch]; omega
    have harith : ci + 1 + f = ci + (f + 1) := by omega
    simp only [stretch_loop, readSCL, hh, Bool.false_eq_true, if_false]
    rw [ih (ci + 1) (by omega) bu st di, harith]


theorem ackSeq_eq (n : Nat) (hn : 1 ≤ n) :
    ackSeq n = List.replicate (n - 1) false ++ [true] := by
  cases n with
  | zero => omega
  | succ m => simp [ackSeq]

theorem write_vec_drop_sentinel (e : Env) (buf : Seg) (c : Int) (s : S) :
    write_vec e [buf, none] c s = write_vec e [buf] c s := by
  cases buf with
  | none => rfl
  | some data => simp only [write_vec]

theorem write_probe_high (e : Env) (hscl : ∀ k, e.scl k = true) (A : Nat)
    (vp : Option (List Seg)) (hvp : vp = none ∨ vp = some [])
    (bu : Bool) (di ci : Nat) :
    Software.write e A vp ⟨bu, true, di, ci⟩ =
      (if e.sda di then -1 else 0,
       (msbBits A).map Ev.bitSent ++ [Ev.bitRecv (e.sda di), Ev.byteSent (A % 256)],
       ⟨bu, false, di + 1, ci + 9⟩) := by
  have hWB := write_byte_high e 0 (fun k _ => hscl k) A bu false di ci (Nat.zero_le ci)
  cases hnk : e.sda di
  · rw [hnk] at hWB
    rcases hvp with hvp | hvp <;> subst hvp <;>
      simp [Software.write, hWB, write_vec]
  · rw [hnk] at hWB
    rcases hvp with hvp | hvp <;> subst hvp <;>
      simp [Software.write, hWB, write_vec]

theorem read_nack_high (e : Env) (hscl : ∀ k, e.scl k = true) (A n : Nat)
    (bu : Bool) (di ci : Nat) (hsda : e.sda di = true) :
    Software.read e A n ⟨bu, true, di, ci⟩ =
      ((-1, []),
       (msbBits (A ||| 1)).map Ev.bitSent
         ++ [Ev.bitRecv true, Ev.byteSent ((A ||| 1) % 256)],
       ⟨bu, false, di + 1, ci + 9⟩) := by
  have hWB := write_byte_high e 0 (fun k _ => hscl k) (A ||| 1) bu false di ci (Nat.zero_le ci)
  rw [hsda] at hWB
  simp [Software.read, hWB]

theorem release_high (e : Env) (hscl : ∀ k, e.scl k = true)
    (bu st : Bool) (di ci : Nat) :
    Software.release e ⟨bu, st, di, ci⟩ =
      (!(e.sda di), [Ev.stop], ⟨false, false, di + 1, ci + 1⟩) := by
  simp only [Software.release]
  rw [show ({ (⟨bu, st, di, ci⟩ : S) with start := false, busy := false } : S)
      = ⟨false, false, di, ci⟩ from rfl]
  exact stop_high e 0 (fun k _ => hscl k) false false di ci (Nat.zero_le ci)

end Software

/-- C1: a write immediately followed by a read on the same bus manager,
without an intervening release, emits exactly one repeated-start and zero
stop conditions, the repeated start sitting exactly at the head of the
read phase, and the busy flag (bus ownership) is unchanged across the
combined operation. -/
theorem claim_C1_repeated_start (e : Env) (s : S) (a b n : Nat)
    (vp : Option (List Seg))
    (hs : s.start = true)
    (h1 : 0 ≤ (Software.write e a vp s).1)
    (h2 : 0 ≤ (Software.read e b n (Software.write e a vp s).2.2).1.1) :
    ((Software.write e a vp s).2.1
        ++ (Software.read e b n (Software.write e a vp s).2.2).2.1).filter isCond
      = [Ev.repStart]
    ∧ (Software.read e b n (Software.write e a vp s).2.2).2.1.head?
      = some Ev.repStart
    ∧ (Software.read e b n (Software.write e a vp s).2.2).2.2.busy = s.busy := by
  obtain ⟨hq, hstart⟩ := Software.write_start_quiet e a vp s hs
  have hbusyW := Software.write_busy_any e a vp s
  rcases hR : Software.read e b n (Software.write e a vp s).2.2
    with ⟨⟨r2, ds⟩, t2, s2⟩
  rw [hR] at h2
  simp only at h2
  obtain ⟨_, _, _, _, _, hcondF, hbusyR, _⟩ :=
    Software.read_succ e b n (Software.write e a vp s).2.2 r2 ds t2 s2 hR h2
  obtain ⟨hhead, hfilter⟩ := hcondF hstart
  refine ⟨?_, ?_, ?_⟩
  · rw [List.filter_append, hq, hfilter]
    rfl
  · exact hhead
  · rw [hbusyR, hbusyW]

/-- C2 counterexample: in the software implementation, release() right
after acquire() (so the last operation was not a write) still performs
the stop-condition waveform: its event trace is [stop], not empty. -/
theorem claim_C2_cex :
    Software.acquire envNack 0 sFree = some (true, [Ev.start], sAcq1)
    ∧ (Software.release envNack sAcq1).2.1 = [Ev.stop]
    ∧ (Software.release envNack sAcq1).2.1 ≠ [] := by
  refine ⟨by decide, by decide, by decide⟩

/-- C2 amended: in the Hardware (SAM) implementation release() emits a
stop condition exactly when m_state is WRITE_STATE (the transaction's
last operation was a write) and performs no signaling otherwise, always
clearing the busy flag and returning the state to idle; in the Software
implementation release() performs the stop-condition waveform
unconditionally (shown here under a clock that is never stretched). -/
theorem claim_C2_release_stop (he : Hardware.HwEnv) (hs : Hardware.HwS)
    (e : Env) (s : S) :
    (hs.state = Hardware.HwState.writeS →
      (Hardware.release he hs).2.1 = [Ev.stop])
    ∧ (hs.state ≠ Hardware.HwState.writeS → (Hardware.release he hs).2.1 = [])
    ∧ (Hardware.release he hs).2.2.busy = false
    ∧ (Hardware.release he hs).2.2.state = Hardware.HwState.idle
    ∧ ((∀ k, e.scl k = true) → (Software.release e s).2.1 = [Ev.stop]) := by
  refine ⟨?_, ?_, ?_, ?_, ?_⟩
  · intro h
    simp [Hardware.release, Hardware.stop_condition, Hardware.hwWait, h]
  · intro h
    simp [Hardware.release, Hardware.stop_condition, Hardware.hwWait, h]
  · by_cases h : hs.state = Hardware.HwState.writeS <;>
      simp [Hardware.release, Hardware.stop_condition, Hardware.hwWait, h]
  · by_cases h : hs.state = Hardware.HwState.writeS <;>
      simp [Hardware.release, Hardware.stop_condition, Hardware.hwWait, h]
  · intro hscl
    obtain ⟨bu, st, di, ci⟩ := s
    simp only [Software.release]
    rw [Software.stop_high e 0 (fun k _ => hscl k) false false di ci (Nat.zero_le ci)]

/-- C3: the busy flag implements mutual exclusion: acquire() never
completes while the flag is set (it keeps yielding), a successful wait
sets the flag before the start-condition attempt (so it stays set even if
that attempt fails), read() and write() never touch the flag (a failure
leaves it set), and release() always clears it, after which acquire()
can complete again. -/
theorem claim_C3_busy_flag (e : Env) (fuel : Nat) (s : S) (a n : Nat)
    (vp : Option (List Seg)) :
    (s.busy = true → Software.acquire e fuel s = none)
    ∧ (s.busy = false →
        Software.acquire e fuel s = some (Software.acquire_attempt e s)
        ∧ (Software.acquire_attempt e s).2.2.busy = true)
    ∧ (Software.read e a n s).2.2.busy = s.busy
    ∧ (Software.write e a vp s).2.2.busy = s.busy
    ∧ (Software.release e s).2.2.busy = false
    ∧ Software.acquire e fuel ((Software.release e s).2.2)
      = some (Software.acquire_attempt e ((Software.release e s).2.2)) := by
  refine ⟨?_, ?_, ?_, ?_, ?_, ?_⟩
  · intro h
    exact Software.acquire_busy_none e fuel s h
  · intro h
    exact ⟨Software.acquire_free_some e fuel s h,
      (Software.acquire_attempt_sets e s).1⟩
  · exact Software.read_busy_any e a n s
  · exact Software.write_busy_any e a vp s
  · exact (Software.release_clears e s).1
  · exact Software.acquire_free_some e fuel _ (Software.release_clears e s).1

/-- C4 counterexample: in the software implementation a zero-byte read
at an acquired bus with an acknowledging device succeeds (returns 0) yet
does signal on the lines: it transmits the full address byte, so its
event trace is not empty. -/
theorem claim_C4_cex :
    (Software.read envAck 10 0 sAcq).1.1 = 0
    ∧ (Software.read envAck 10 0 sAcq).2.1 ≠ []
    ∧ (Software.read envAck 10 0 sAcq).2.1.filterMap sentByteOf = [11] := by
  refine ⟨by decide, by decide, by decide⟩

/-- C4 amended: the Hardware (SAM) implementation short-circuits a
zero-byte read, returning 0 with no signaling and no state change; the
Software implementation transfers zero bytes into the buffer but still
performs the (repeated-)start and address phase, returning 0 exactly
when the addressed device acknowledges. -/
theorem claim_C4_zero_read (he : Hardware.HwEnv) (hhs : Hardware.HwS)
    (b : Nat) (e : Env) (s : S) (a : Nat) :
    Hardware.read he b 0 hhs = ((0, []), [], hhs)
    ∧ (Software.read e a 0 s).1.2 = []
    ∧ (0 ≤ (Software.read e a 0 s).1.1 →
        (Software.read e a 0 s).1.1 = 0
        ∧ (Software.read e a 0 s).2.1.filterMap sentByteOf = [(a ||| 1) % 256]) := by
  refine ⟨by simp [Hardware.read], ?_, ?_⟩
  · rcases hR : Software.read e a 0 s with ⟨⟨r, ds⟩, t, s'⟩
    simp only
    cases hst : s.start
    · simp only [Software.read, hst, Bool.false_eq_true, if_false] at hR
      rcases h0 : Software.repeated_start_condition e s with ⟨ok0, t0, s0⟩
      rw [h0] at hR
      cases ok0
      · simp at hR
        exact hR.1.2
      · simp at hR
        rcases h1 : Software.write_byte e (a ||| 1) { s0 with start := false }
          with ⟨⟨ok1, nk⟩, t1, s1⟩
        rw [h1] at hR
        cases ok1
        · simp at hR
          exact hR.1.2
        · cases nk
          · simp [Software.read_loop] at hR
            exact hR.1.2
          · simp at hR
            exact hR.1.2
    · simp only [Software.read, hst, if_true] at hR
      simp at hR
      rcases h1 : Software.write_byte e (a ||| 1) { s with start := false }
        with ⟨⟨ok1, nk⟩, t1, s1⟩
      rw [h1] at hR
      cases ok1
      · simp at hR
        exact hR.1.2
      · cases nk
        · simp [Software.read_loop] at hR
          exact hR.1.2
        · simp at hR
          exact hR.1.2
  · rcases hR : Software.read e a 0 s with ⟨⟨r, ds⟩, t, s'⟩
    intro hr
    obtain ⟨hr1, _, hbyte, _⟩ :=
      Software.read_succ e a 0 s r ds t s' hR hr
    exact ⟨by simpa using hr1, hbyte⟩

/-- C5: a successful scatter/gather write transmits a single address
phase followed by the byte concatenation of the segments in list order
(every transmitted byte after the address byte is exactly the join of the
segments), with no start/stop condition anywhere after the optional
leading repeated start, and returns the sum of the segment lengths. -/
theorem claim_C5_scatter_gather (e : Env) (s : S) (a : Nat)
    (segs : List (List Nat))
    (hr : 0 ≤ (Software.write e a (some (segs.map some)) s).1) :
    (Software.write e a (some (segs.map some)) s).1
      = Int.ofNat (segs.map List.length).sum
    ∧ (Software.write e a (some (segs.map some)) s).2.1.filterMap sentByteOf
      = a % 256 :: segs.join.map (fun d => d % 256)
    ∧ (Software.write e a (some (segs.map some)) s).2.1.filter isCond
      = (if s.start = true then [] else [Ev.repStart])
    ∧ (s.start = false →
        (Software.write e a (some (segs.map some)) s).2.1.head?
          = some Ev.repStart) := by
  rcases hW : Software.write e a (some (segs.map some)) s with ⟨r, t, s'⟩
  rw [hW] at hr
  simp only at hr
  obtain ⟨h1, h2, h3, h4, _, _⟩ :=
    Software.write_succ e a segs s r t s' hW hr
  refine ⟨h1, h2, ?_, fun hf => (h4 hf).1⟩
  cases hst : s.start
  · simp only [if_neg]
    exact (h4 hst).2
  · simp only [if_pos]
    exact h3 hst

/-- C6: a successful read of n bytes (n at least 1) returns n, and the
acknowledgement bits the master drives are exactly ACK (low) after each
of the first n-1 bytes and NACK after the n-th: the driven-bit trace is
the 8 address bits followed by n-1 ACKs and one final NACK. -/
theorem claim_C6_ack_nack (e : Env) (s : S) (a n : Nat) (hn : 1 ≤ n)
    (hr : 0 ≤ (Software.read e a n s).1.1) :
    (Software.read e a n s).1.1 = Int.ofNat n
    ∧ (Software.read e a n s).2.1.filterMap sentBitOf
      = msbBits (a ||| 1) ++ (List.replicate (n - 1) false ++ [true]) := by
  rcases hR : Software.read e a n s with ⟨⟨r, ds⟩, t, s'⟩
  rw [hR] at hr
  simp only at hr
  obtain ⟨h1, _, _, hbit, _, _, _, _⟩ :=
    Software.read_succ e a n s r ds t s' hR hr
  refine ⟨h1, ?_⟩
  rw [hbit, Software.ackSeq_eq n hn]

/-- C7: bus-scan correctness: with a simulated device that acknowledges
exactly when present, acquire() on a free bus succeeds (for any yield
budget), a write with an empty descriptor (NULL vector or empty vector)
transmits only the single address byte (no payload, no extra conditions)
and returns 0 exactly when the device acknowledges and -1 otherwise, and
the closing release() clears the busy flag. -/
theorem claim_C7_bus_scan (raw : Nat) (devAck : Bool) (hraw : raw < 128) :
    (∀ fuel, Software.acquire (envScan devAck) fuel sFree
        = some (true, [Ev.start], sAcq1))
    ∧ (Software.write (envScan devAck) (Device.make raw).m_addr none sAcq1).1
        = (if devAck then 0 else -1)
    ∧ (Software.write (envScan devAck) (Device.make raw).m_addr (some []) sAcq1).1
        = (if devAck then 0 else -1)
    ∧ ((Software.write (envScan devAck) (Device.make raw).m_addr none sAcq1).2.1).filterMap
        sentByteOf = [(Device.make raw).m_addr]
    ∧ ((Software.write (envScan devAck) (Device.make raw).m_addr none sAcq1).2.1).filter
        isCond = []
    ∧ (Software.release (envScan devAck)
        (Software.write (envScan devAck) (Device.make raw).m_addr none sAcq1).2.2).1
        = devAck
    ∧ (Software.release (envScan devAck)
        (Software.write (envScan devAck) (Device.make raw).m_addr none sAcq1).2.2).2.2.busy
        = false := by
  have hscl : ∀ k, (envScan devAck).scl k = true := fun k => rfl
  have hsda1 : (envScan devAck).sda 1 = !devAck := by simp [envScan]
  have hmod : (Device.make raw).m_addr % 256 = (Device.make raw).m_addr :=
    Nat.mod_mod_of_dvd _ dvd_rfl
  have hW := Software.write_probe_high (envScan devAck) hscl
    (Device.make raw).m_addr none (Or.inl rfl) true 1 0
  have hW2 := Software.write_probe_high (envScan devAck) hscl
    (Device.make raw).m_addr (some []) (Or.inr rfl) true 1 0
  rw [hsda1] at hW hW2
  have hres : (if (!devAck) = true then (-1 : Int) else 0)
      = (if devAck then 0 else -1) := by cases devAck <;> simp
  refine ⟨?_, ?_, ?_, ?_, ?_, ?_, ?_⟩
  · intro fuel
    rw [Software.acquire_free_some (envScan devAck) fuel sFree rfl]
    simp [Software.acquire_attempt, Software.start_condition, Software.readSDA,
      envScan, sFree, sAcq1]
  · rw [show sAcq1 = (⟨true, true, 1, 0⟩ : S) from rfl, hW, hres]
  · rw [show sAcq1 = (⟨true, true, 1, 0⟩ : S) from rfl, hW2, hres]
  · rw [show sAcq1 = (⟨true, true, 1, 0⟩ : S) from rfl, hW]
    simp [List.filterMap_append, List.filterMap_cons,
      Software.filterMap_sentByte_bits, Software.filterMap_comp_sentByte, hmod]
  · rw [show sAcq1 = (⟨true, true, 1, 0⟩ : S) from rfl, hW]
    simp [List.filter_append, List.filter_cons,
      Software.filter_isCond_bits, Software.filter_comp_isCond]
  · rw [show sAcq1 = (⟨true, true, 1, 0⟩ : S) from rfl, hW]
    simp only
    rw [Software.release_high (envScan devAck) hscl true false 2 9]
    simp [envScan]
  · rw [show sAcq1 = (⟨true, true, 1, 0⟩ : S) from rfl, hW]
    simp only
    rw [Software.release_high (envScan devAck) hscl true false 2 9]

/-- C8 counterexample: the direction bit is not applied by the Device
Handle: for device address 5 the handle stores and forwards m_addr = 10
(bit 0 clear), while the address byte actually transmitted on the wire
during a read carries the direction bit: 11.  The bus manager, not the
handle, ORs in the bit, so the claim that the handle applies it is
false. -/
theorem claim_C8_cex :
    (Device.make 5).m_addr = 10
    ∧ (Device.make 5).m_addr.testBit 0 = false
    ∧ ((Device.read envAck (Device.make 5) 0 sAcq).2.1).filterMap sentByteOf = [11]
    ∧ (Device.make 5).m_addr ≠ 11 := by
  refine ⟨by decide, by decide, by decide, by decide⟩

/-- C8 amended: the Device constructor stores addr << 1 with bit 0 clear;
the direction bit is ORed in by the bus manager's read/write (addr | 1
for read, addr | 0 for write); every successful read transmits as its
first byte the 7-bit address shifted left with the read bit set, MSB
first (the first 8 driven bits are its MSB-first expansion); and a device
that does not acknowledge the address byte makes the read abort with a
negative result. -/
theorem claim_C8_address_byte (raw : Nat) (hraw : raw < 128) (e : Env)
    (s : S) (n m : Nat) :
    (Device.make raw).m_addr = 2 * raw
    ∧ (Device.make raw).m_addr.testBit 0 = false
    ∧ (0 ≤ (Device.read e (Device.make raw) n s).1.1 →
        ((Device.read e (Device.make raw) n s).2.1).filterMap sentByteOf
          = [2 * raw + 1]
        ∧ (((Device.read e (Device.make raw) n s).2.1).filterMap sentBitOf).take 8
          = msbBits (2 * raw + 1))
    ∧ (Device.read envNack (Device.make raw) m sAcq).1.1 = -1 := by
  have haux : ∀ r : Nat, r < 128 →
      (Device.make r).m_addr = 2 * r
      ∧ (Device.make r).m_addr.testBit 0 = false
      ∧ ((Device.make r).m_addr ||| 1) = 2 * r + 1
      ∧ ((Device.make r).m_addr ||| 1) % 256 = 2 * r + 1 := by decide
  obtain ⟨ha1, ha2, ha3, ha4⟩ := haux raw hraw
  refine ⟨ha1, ha2, ?_, ?_⟩
  · rcases hR : Device.read e (Device.make raw) n s with ⟨⟨r, ds⟩, t, s'⟩
    intro hr
    obtain ⟨_, _, hbyte, hbit, _, _, _, _⟩ :=
      Software.read_succ e (Device.make raw).m_addr n s r ds t s' hR hr
    constructor
    · rw [hbyte, ha4]
    · rw [hbit, ha3]
      rw [show (8 : Nat) = (msbBits (2 * raw + 1)).length from rfl]
      exact List.take_left _ _
  · show (Software.read envNack (Device.make raw).m_addr m sAcq).1.1 = -1
    rw [show sAcq = (⟨true, true, 0, 0⟩ : S) from rfl]
    rw [Software.read_nack_high envNack (fun k => rfl)
      (Device.make raw).m_addr m true 0 0 rfl]

/-- C9: clock stretching tolerance: a device that holds the clock low for
n polling cycles does not make the transaction fail when n is below the
retry ceiling of 25 (the stretching wait succeeds and a one-byte probe
write completes with result 0), while n at or beyond the ceiling makes
the wait time out and the write fail with -1; moreover every stretching
wait polls the clock at most 25 times, whatever the environment. -/
theorem claim_C9_clock_stretching (n a : Nat) :
    (∀ (e : Env) (s : S),
      (Software.clock_stretching e s).2.sclIdx
        ≤ s.sclIdx + Software.CLOCK_STRETCHING_RETRY_MAX)
    ∧ (n < 25 →
        Software.clock_stretching (envStretch n) sAcq = (true, ⟨true, true, 0, n + 1⟩)
        ∧ (Software.write (envStretch n) a (some []) sAcq).1 = 0)
    ∧ (25 ≤ n →
        Software.clock_stretching (envStretch n) sAcq = (false, ⟨true, true, 0, 25⟩)
        ∧ (Software.write (envStretch n) a (some []) sAcq).1 = -1) := by
  refine ⟨?_, ?_, ?_⟩
  · intro e s
    exact Software.stretch_loop_bound e Software.CLOCK_STRETCHING_RETRY_MAX s
  · intro hn
    constructor
    · rw [show sAcq = (⟨true, true, 0, 0⟩ : S) from rfl]
      simp only [Software.clock_stretching, Software.CLOCK_STRETCHING_RETRY_MAX]
      exact Software.stretchN_at n 25 0 (Nat.zero_le n) (by omega) true true 0
    · have hscl2 : ∀ k, n + 1 ≤ k → (envStretch n).scl k = true := by
        intro k hk
        simp [envStretch]
        omega
      have hcs1 : Software.clock_stretching (envStretch n) ⟨true, false, 0, 0⟩
          = (true, ⟨true, false, 0, n + 1⟩) := by
        simp only [Software.clock_stretching, Software.CLOCK_STRETCHING_RETRY_MAX]
        exact Software.stretchN_at n 25 0 (Nat.zero_le n) (by omega) true false 0
      have hwb1 : Software.write_bit (envStretch n) (a.testBit 7) ⟨true, false, 0, 0⟩
          = (true, [Ev.bitSent (a.testBit 7)], ⟨true, false, 0, n + 1⟩) := by
        simp [Software.write_bit, hcs1]
      have hbits : Software.send_bits (envStretch n)
          [a.testBit 6, a.testBit 5, a.testBit 4, a.testBit 3,
           a.testBit 2, a.testBit 1, a.testBit 0] ⟨true, false, 0, n + 1⟩
          = (true, [a.testBit 6, a.testBit 5, a.testBit 4, a.testBit 3,
              a.testBit 2, a.testBit 1, a.testBit 0].map Ev.bitSent,
             ⟨true, false, 0, n + 8⟩) := by
        have := Software.send_bits_high (envStretch n) (n + 1) hscl2
          [a.testBit 6, a.testBit 5, a.testBit 4, a.testBit 3,
           a.testBit 2, a.testBit 1, a.testBit 0] true false 0 (n + 1) le_rfl
        simpa [show n + 1 + 7 = n + 8 from by omega] using this
      have hrb : Software.read_bit (envStretch n) ⟨true, false, 0, n + 8⟩
          = ((true, false), [Ev.bitRecv false], ⟨true, false, 1, n + 9⟩) := by
        have := Software.read_bit_high (envStretch n) (n + 1) hscl2
          true false 0 (n + 8) (by omega)
        simpa [envStretch, show n + 8 + 1 = n + 9 from by omega] using this
      have hbits8 : Software.send_bits (envStretch n) (msbBits a) ⟨true, false, 0, 0⟩
          = (true, (msbBits a).map Ev.bitSent, ⟨true, false, 0, n + 8⟩) := by
        have h1 : Software.send_bits (envStretch n) (msbBits a) ⟨true, false, 0, 0⟩
            = (match Software.write_bit (envStretch n) (a.testBit 7)
                  ⟨true, false, 0, 0⟩ with
               | (true, t1, s1) =>
                 match Software.send_bits (envStretch n)
                     [a.testBit 6, a.testBit 5, a.testBit 4, a.testBit 3,
                      a.testBit 2, a.testBit 1, a.testBit 0] s1 with
                 | (ok, t2, s2) => (ok, t1 ++ t2, s2)
               | (false, t1, s1) => (false, t1, s1)) := rfl
        rw [h1, hwb1]
        simp only [hbits]
        simp [msbBits]
      have hWB : Software.write_byte (envStretch n) a ⟨true, false, 0, 0⟩
          = ((true, false),
             (msbBits a).map Ev.bitSent ++ [Ev.bitRecv false, Ev.byteSent (a % 256)],
             ⟨true, false, 1, n + 9⟩) := by
        simp only [Software.write_byte]
        rw [hbits8]
        simp only [hrb]
        simp
      rw [show sAcq = (⟨true, true, 0, 0⟩ : S) from rfl]
      simp [Software.write, hWB, Software.write_vec]
  · intro hn
    have hcs : ∀ (st : Bool), Software.clock_stretching (envStretch n) ⟨true, st, 0, 0⟩
        = (false, ⟨true, st, 0, 25⟩) := by
      intro st
      simp only [Software.clock_stretching, Software.CLOCK_STRETCHING_RETRY_MAX]
      exact Software.stretchN_low n 25 0 (by omega) true st 0
    constructor
    · rw [show sAcq = (⟨true, true, 0, 0⟩ : S) from rfl]
      exact hcs true
    · have hwb1 : Software.write_bit (envStretch n) (a.testBit 7) ⟨true, false, 0, 0⟩
          = (false, [], ⟨true, false, 0, 25⟩) := by
        simp [Software.write_bit, hcs false]
      have hbitsF : Software.send_bits (envStretch n) (msbBits a) ⟨true, false, 0, 0⟩
          = (false, [], ⟨true, false, 0, 25⟩) := by
        have h1 : Software.send_bits (envStretch n) (msbBits a) ⟨true, false, 0, 0⟩
            = (match Software.write_bit (envStretch n) (a.testBit 7)
                  ⟨true, false, 0, 0⟩ with
               | (true, t1, s1) =>
                 match Software.send_bits (envStretch n)
                     [a.testBit 6, a.testBit 5, a.testBit 4, a.testBit 3,
                      a.testBit 2, a.testBit 1, a.testBit 0] s1 with
                 | (ok, t2, s2) => (ok, t1 ++ t2, s2)
               | (false, t1, s1) => (false, t1, s1)) := rfl
        rw [h1, hwb1]
      have hWB : Software.write_byte (envStretch n) a ⟨true, false, 0, 0⟩
          = ((false, false), [], ⟨true, false, 0, 25⟩) := by
        simp only [Software.write_byte]
        rw [hbitsF]
      rw [show sAcq = (⟨true, true, 0, 0⟩ : S) from rfl]
      simp [Software.write, hWB]

/-- C10: the buffer overload of write is exactly the scatter/gather
overload applied to the descriptor holding the single segment (buf,
count): the base class builds the two-entry io vector (segment plus
sentinel) and delegates, so both return the same result, emit the same
events on the bus and leave the same state. -/
theorem claim_C10_write_overload (e : Env) (a : Nat) (buf : Seg) (s : S) :
    write_buf e a buf s = Software.write e a (some [buf]) s := by
  show Software.write e a (some [buf, none]) s = Software.write e a (some [buf]) s
  cases hst : s.start
  · simp only [Software.write, hst, Bool.false_eq_true, if_false]
    rcases h0 : Software.repeated_start_condition e s with ⟨ok0, t0, s0⟩
    cases ok0
    · simp
    · simp only
      rcases h1 : Software.write_byte e a { s0 with start := false }
        with ⟨⟨ok1, nk⟩, t1, s1⟩
      cases ok1
      · simp
      · cases nk
        · simp only
          rw [Software.write_vec_drop_sentinel]
        · simp
  · simp only [Software.write, hst, if_true]
    rcases h1 : Software.write_byte e a { s with start := false }
      with ⟨⟨ok1, nk⟩, t1, s1⟩
    cases ok1
    · simp
    · cases nk
      · simp only
        rw [Software.write_vec_drop_sentinel]
      · simp

/-- C1 witness: a concrete one-byte write followed by a one-byte read on
a simulated acknowledging bus. -/
theorem claim_C1_repeated_start_witness :
    ((Software.write envWR 16 (some [some [7]]) sAcq).2.1
        ++ (Software.read envWR 16 1
              (Software.write envWR 16 (some [some [7]]) sAcq).2.2).2.1).filter isCond
      = [Ev.repStart]
    ∧ (Software.read envWR 16 1
        (Software.write envWR 16 (some [some [7]]) sAcq).2.2).2.1.head?
      = some Ev.repStart
    ∧ (Software.read envWR 16 1
        (Software.write envWR 16 (some [some [7]]) sAcq).2.2).2.2.busy = sAcq.busy :=
  claim_C1_repeated_start envWR sAcq 16 16 1 (some [some [7]]) rfl
    (by decide) (by decide)

/-- C2 witness: both hardware release behaviours and the unconditional
software stop waveform at concrete states. -/
theorem claim_C2_release_stop_witness :
    (Hardware.release hwEnvT hwWrite).2.1 = [Ev.stop]
    ∧ (Hardware.release hwEnvT hwBusy).2.1 = []
    ∧ (Hardware.release hwEnvT hwWrite).2.2.busy = false
    ∧ (Software.release envNack sAcq).2.1 = [Ev.stop] :=
  ⟨(claim_C2_release_stop hwEnvT hwWrite envNack sAcq).1 rfl,
   (claim_C2_release_stop hwEnvT hwBusy envNack sAcq).2.1 (by decide),
   (claim_C2_release_stop hwEnvT hwWrite envNack sAcq).2.2.1,
   (claim_C2_release_stop hwEnvT hwWrite envNack sAcq).2.2.2.2 (fun k => rfl)⟩

/-- C3 witness: with the bus held, acquire with yield budget 3 does not
complete; on a free bus it completes with the busy flag set; read, write
and release at concrete inputs behave as claimed. -/
theorem claim_C3_busy_flag_witness :
    Software.acquire envNack 3 sAcq = none
    ∧ Software.acquire envNack 3 sFree = some (Software.acquire_attempt envNack sFree)
    ∧ (Software.acquire_attempt envNack sFree).2.2.busy = true
    ∧ (Software.read envNack 16 1 sAcq).2.2.busy = sAcq.busy
    ∧ (Software.write envNack 16 none sAcq).2.2.busy = sAcq.busy
    ∧ (Software.release envNack sAcq).2.2.busy = false
    ∧ Software.acquire envNack 3 ((Software.release envNack sAcq).2.2)
      = some (Software.acquire_attempt envNack ((Software.release envNack sAcq).2.2)) :=
  ⟨(claim_C3_busy_flag envNack 3 sAcq 16 1 none).1 rfl,
   ((claim_C3_busy_flag envNack 3 sFree 16 1 none).2.1 rfl).1,
   ((claim_C3_busy_flag envNack 3 sFree 16 1 none).2.1 rfl).2,
   (claim_C3_busy_flag envNack 3 sAcq 16 1 none).2.2.1,
   (claim_C3_busy_flag envNack 3 sAcq 16 1 none).2.2.2.1,
   (claim_C3_busy_flag envNack 3 sAcq 16 1 none).2.2.2.2.1,
   (claim_C3_busy_flag envNack 3 sAcq 16 1 none).2.2.2.2.2⟩

/-- C4 witness: the hardware zero-read short-circuit and the software
zero-read behaviour at an acknowledging device. -/
theorem claim_C4_zero_read_witness :
    Hardware.read hwEnvT 7 0 hwBusy = ((0, []), [], hwBusy)
    ∧ (Software.read envAck 10 0 sAcq).1.2 = []
    ∧ ((Software.read envAck 10 0 sAcq).1.1 = 0
        ∧ (Software.read envAck 10 0 sAcq).2.1.filterMap sentByteOf
          = [(10 ||| 1) % 256]) :=
  ⟨(claim_C4_zero_read hwEnvT hwBusy 7 envAck sAcq 10).1,
   (claim_C4_zero_read hwEnvT hwBusy 7 envAck sAcq 10).2.1,
   (claim_C4_zero_read hwEnvT hwBusy 7 envAck sAcq 10).2.2 (by decide)⟩

/-- C5 witness: a two-segment scatter write observed as the byte
concatenation after a single address phase. -/
theorem claim_C5_scatter_gather_witness :
    (Software.write envAck 16 (some (([[1], [2, 3]] : List (List Nat)).map some)) sAcq).1
      = Int.ofNat (([[1], [2, 3]] : List (List Nat)).map List.length).sum
    ∧ (Software.write envAck 16
        (some (([[1], [2, 3]] : List (List Nat)).map some)) sAcq).2.1.filterMap sentByteOf
      = 16 % 256 :: ([[1], [2, 3]] : List (List Nat)).join.map (fun d => d % 256)
    ∧ (Software.write envAck 16
        (some (([[1], [2, 3]] : List (List Nat)).map some)) sAcq).2.1.filter isCond
      = (if sAcq.start = true then [] else [Ev.repStart])
    ∧ (sAcq.start = false →
        (Software.write envAck 16
          (some (([[1], [2, 3]] : List (List Nat)).map some)) sAcq).2.1.head?
          = some Ev.repStart) :=
  claim_C5_scatter_gather envAck sAcq 16 [[1], [2, 3]] (by decide)

/-- C6 witness: a two-byte read acknowledges the first byte and NACKs the
second. -/
theorem claim_C6_ack_nack_witness :
    (Software.read envAck 16 2 sAcq).1.1 = Int.ofNat 2
    ∧ (Software.read envAck 16 2 sAcq).2.1.filterMap sentBitOf
      = msbBits (16 ||| 1) ++ (List.replicate (2 - 1) false ++ [true]) :=
  claim_C6_ack_nack envAck sAcq 16 2 (by decide) (by decide)

/-- C7 witness: the scan sequence at address 60 with a present device
(acknowledging) and yield budget 5. -/
theorem claim_C7_bus_scan_witness :
    Software.acquire (envScan true) 5 sFree = some (true, [Ev.start], sAcq1)
    ∧ (Software.write (envScan true) (Device.make 60).m_addr none sAcq1).1
      = (if true then 0 else -1)
    ∧ ((Software.write (envScan true) (Device.make 60).m_addr none sAcq1).2.1).filterMap
        sentByteOf = [(Device.make 60).m_addr]
    ∧ (Software.release (envScan true)
        (Software.write (envScan true) (Device.make 60).m_addr none sAcq1).2.2).1
      = true :=
  ⟨(claim_C7_bus_scan 60 true (by decide)).1 5,
   (claim_C7_bus_scan 60 true (by decide)).2.1,
   (claim_C7_bus_scan 60 true (by decide)).2.2.2.1,
   (claim_C7_bus_scan 60 true (by decide)).2.2.2.2.2.1⟩

/-- C8 witness: address 5: the stored field is 10 with bit 0 clear, a
successful read transmits 11 MSB first, and a non-acknowledging device
aborts the read. -/
theorem claim_C8_address_byte_witness :
    (Device.make 5).m_addr = 2 * 5
    ∧ (Device.make 5).m_addr.testBit 0 = false
    ∧ ((Device.read envAck (Device.make 5) 1 sAcq).2.1).filterMap sentByteOf
        = [2 * 5 + 1]
    ∧ (((Device.read envAck (Device.make 5) 1 sAcq).2.1).filterMap sentBitOf).take 8
        = msbBits (2 * 5 + 1)
    ∧ (Device.read envNack (Device.make 5) 1 sAcq).1.1 = -1 :=
  ⟨(claim_C8_address_byte 5 (by decide) envAck sAcq 1 1).1,
   (claim_C8_address_byte 5 (by decide) envAck sAcq 1 1).2.1,
   ((claim_C8_address_byte 5 (by decide) envAck sAcq 1 1).2.2.1 (by decide)).1,
   ((claim_C8_address_byte 5 (by decide) envAck sAcq 1 1).2.2.1 (by decide)).2,
   (claim_C8_address_byte 5 (by decide) envAck sAcq 1 1).2.2.2⟩

/-- C9 witness: a device stretching the clock for 3 polls neither fails
the wait nor the probe write; the wait consumes a bounded number of
polls at a concrete state. -/
theorem claim_C9_clock_stretching_witness :
    (Software.clock_stretching envNack sFree).2.sclIdx
      ≤ sFree.sclIdx + Software.CLOCK_STRETCHING_RETRY_MAX
    ∧ Software.clock_stretching (envStretch 3) sAcq = (true, ⟨true, true, 0, 3 + 1⟩)
    ∧ (Software.write (envStretch 3) 77 (some []) sAcq).1 = 0 :=
  ⟨(claim_C9_clock_stretching 3 77).1 envNack sFree,
   ((claim_C9_clock_stretching 3 77).2.1 (by decide)).1,
   ((claim_C9_clock_stretching 3 77).2.1 (by decide)).2⟩
